import Mathlib

/-!
Verification development for the SokobanSolver repository.

Shallow embedding of `src/node.rs`, `src/sokoban.rs` and `src/solver.rs`:
pure Rust functions become Lean functions, `&mut self` methods become
state-passing functions, Rust panics (failing index/unwrap) become `none`
in an `Option` result, and the recursive flood fill / search loops take an
explicit fuel argument.  `usize` is modeled as `Nat`; the one addition whose
overflow behaviour a stated property depends on (`start_cost +
heuristic_value` compared against `usize::MAX` in `solve_dfs`) is reduced
`% 2 ^ 64`, matching release-mode wrapping semantics.
-/

namespace SokobanSolver

/-- Modulus of `usize` on a 64-bit target. -/
def USIZE : Nat := 2 ^ 64

/-- Association-list lookup, the model of `HashMap::get` (first match wins,
    so prepending a pair models an overwriting `insert`). -/
def alist_get {α β : Type} [DecidableEq α] : List (α × β) → α → Option β
  | [], _ => none
  | (k, v) :: rest, a => if k = a then some v else alist_get rest a

/-- Position from `src/node.rs`: an `(x, y)` pair of `usize` coordinates. -/
structure Position where
  x : Nat
  y : Nat
deriving DecidableEq

/-- NodeType from `src/node.rs`. -/
inductive NodeType where
  | Empty
  | Wall
  | Whole
  | Box
  | Player
  | BoxOnWhole
  | PlayerOnWhole
deriving DecidableEq

namespace NodeType

/-- Numeric value of the enum, as in `NodeType as usize`. -/
def toNat : NodeType → Nat
  | Empty => 0
  | Wall => 1
  | Whole => 2
  | Box => 3
  | Player => 4
  | BoxOnWhole => 5
  | PlayerOnWhole => 6

/-- `NodeType::is_player` from `src/node.rs`. -/
def is_player (t : NodeType) : Bool :=
  t == Player || t == PlayerOnWhole

/-- `NodeType::is_box` from `src/node.rs`. -/
def is_box (t : NodeType) : Bool :=
  t == Box || t == BoxOnWhole

/-- `NodeType::is_whole` from `src/node.rs`. -/
def is_whole (t : NodeType) : Bool :=
  t == Whole || t == BoxOnWhole || t == PlayerOnWhole

/-- `NodeType::can_move` from `src/node.rs`. -/
def can_move (t : NodeType) : Bool :=
  !(t == Box || t == BoxOnWhole || t == Wall)

/-- `NodeType::build` from `src/node.rs` (the forward digit table);
    `Err` is modeled as `none`. -/
def build : Nat → Option NodeType
  | 0 => some Empty
  | 1 => some Wall
  | 2 => some Whole
  | 3 => some Box
  | 4 => some Player
  | 5 => some BoxOnWhole
  | 6 => some PlayerOnWhole
  | _ => none

/-- `NodeType::reverse_build` from `src/node.rs` (the reverse digit table). -/
def reverse_build : Nat → Option NodeType
  | 0 => some Empty
  | 1 => some Wall
  | 2 => some Box
  | 3 => some Whole
  | 4 => some Player
  | 5 => some BoxOnWhole
  | 6 => some Box
  | _ => none

end NodeType

/-- Direction from `src/sokoban.rs`. -/
inductive Direction where
  | Up
  | Down
  | Left
  | Right
deriving DecidableEq

/-- The `Iterator` impl for `Direction` in `src/sokoban.rs`: the fixed cycle
    Up → Down → Left → Right → Up (always `Some`, so modeled total). -/
def Direction.next : Direction → Direction
  | .Up => .Down
  | .Down => .Left
  | .Left => .Right
  | .Right => .Up

/-- `Node::loop_positions` from `src/node.rs`: candidate neighbours with only
    the low-boundary (`> 0`) checks, in the source's push order. -/
def loop_positions (pos : Position) : List Position :=
  (if pos.x > 0 then [⟨pos.x - 1, pos.y⟩] else []) ++
  [⟨pos.x + 1, pos.y⟩] ++
  (if pos.y > 0 then [⟨pos.x, pos.y - 1⟩] else []) ++
  [⟨pos.x, pos.y + 1⟩]

/-- The `Sokoban` struct from `src/sokoban.rs`.  The `player_reachable`
    cache field is not modeled as state: in the source it is overwritten
    from scratch by every `get_hash` call and only ever read immediately
    after one (in `can_reach`), so it is behaviourally a pure function of
    the remaining fields and is modeled as such (`get_hash` below). -/
structure Sokoban where
  width : Nat
  height : Nat
  map : List (Position × NodeType)
  player : Option Position
  goals : List Position
  boxes : List Position
deriving DecidableEq

namespace Sokoban

/-- `Sokoban::get_ntype` from `src/sokoban.rs`: static kind (Wall when the
    position is outside the stored map), upgraded by box presence, then by
    player presence. -/
def get_ntype (S : Sokoban) (position : Position) : NodeType :=
  match alist_get S.map position with
  | none => NodeType.Wall
  | some t0 =>
    let t1 := if S.boxes.contains position then
        (if t0 = NodeType.Whole then NodeType.BoxOnWhole else NodeType.Box)
      else t0
    match S.player with
    | none => t1
    | some p =>
      if position = p then
        (if t1 = NodeType.Whole then NodeType.PlayerOnWhole else NodeType.Player)
      else t1

/-- The reachability byte matrix `Vec<Vec<u8>>`, as a width-indexed list of
    height-sized columns (the source indexes `reachable[x][y]`). -/
def Matrix := List (List Nat)

instance : DecidableEq Matrix :=
  inferInstanceAs (DecidableEq (List (List Nat)))

/-- Read `m[x][y]`; `none` models the Rust index panic. -/
def mget (m : Matrix) (x y : Nat) : Option Nat :=
  match List.get? (α := List Nat) m x with
  | none => none
  | some col => col.get? y

/-- Write `m[x][y] = v` (in the source every write is guarded by a
    successful read at the same indices, so an out-of-range write never
    happens and the total no-op-out-of-range update is faithful). -/
def mset (m : Matrix) (x y v : Nat) : Matrix :=
  match List.get? (α := List Nat) m x with
  | none => m
  | some col => List.set (α := List Nat) m x (col.set y v)

/-- Row-major cell list `(x, y)` for `for y in 0..height { for x in 0..width }`. -/
def row_major (height width : Nat) : List Position :=
  (List.range height).flatMap (fun y => (List.range width).map (fun x => ⟨x, y⟩))

/-- `Sokoban::init_player_reachable`: a width×height zero matrix with each
    box cell seeded by its composite kind's numeric value. -/
def init_player_reachable (S : Sokoban) : Matrix :=
  (row_major S.height S.width).foldl
    (fun m p =>
      let t := S.get_ntype p
      if t.is_box then mset m p.x p.y t.toNat else m)
    (List.replicate S.width (List.replicate S.height 0))

/-- Sequential fold of a flood-fill step over a list of positions (the
    `for adjacent in loop_positions` loop), threading the matrix. -/
def build_pr_fold (go : Position → Matrix → Option Matrix) :
    List Position → Matrix → Option Matrix
  | [], m => some m
  | p :: ps, m =>
    match go p m with
    | none => none
    | some m2 => build_pr_fold go ps m2

/-- `Sokoban::build_player_reachable`, the recursive flood fill, with an
    explicit fuel bound on the recursion depth; `none` models either fuel
    exhaustion or the Rust panic of `reachable[x][y]` on an out-of-range
    position (the source checks the matrix before checking `can_move`). -/
def build_player_reachable (S : Sokoban) : Nat → Position → Matrix → Option Matrix
  | 0, _, _ => none
  | fuel + 1, current, m =>
    match mget m current.x current.y with
    | none => none
    | some v =>
      if v = 1 then some m
      else if (S.get_ntype current).can_move then
        build_pr_fold (build_player_reachable S fuel) (loop_positions current)
          (mset m current.x current.y 1)
      else some m

/-- `Sokoban::get_hash` from `src/sokoban.rs`: rebuild the reachable matrix
    from the current player (`unwrap` panic when the player is `None` is
    `none`) and hash it.  `DefaultHasher` over the matrix is modeled as the
    matrix itself — an injective hash, which is exactly the
    collisions-excluded reading the stated properties use. -/
def get_hash (S : Sokoban) : Option Matrix :=
  match S.player with
  | none => none
  | some p =>
    build_player_reachable S (S.width * S.height + 1) p S.init_player_reachable

/-- `Sokoban::can_reach`: recompute the matrix (via `get_hash`) and read the
    entry at `position`; `none` models the panics (no player, flood-fill
    panic, or an out-of-range read of the matrix). -/
def can_reach (S : Sokoban) (position : Position) : Option Bool :=
  match S.get_hash with
  | none => none
  | some m =>
    match mget m position.x position.y with
    | none => none
    | some v => some (v == 1)

/-- `Sokoban::is_resolved`: the box position set equals the goal position
    set (`HashSet` equality = mutual membership). -/
def is_resolved (S : Sokoban) : Bool :=
  S.boxes.all (fun b => S.goals.contains b) &&
  S.goals.all (fun g => S.boxes.contains g)

/-- `Sokoban::move_box` from `src/sokoban.rs`.  Result `some (applied, S)`:
    `applied = false` leaves the state unchanged; `none` models a panic
    (box index out of range, or a panic inside `can_reach`). -/
def move_box (S : Sokoban) (box_index : Nat) (direction : Direction) :
    Option (Bool × Sokoban) :=
  match S.boxes.get? box_index with
  | none => none
  | some bp =>
    let shifted : Option (Position × Position) :=
      match direction with
      | .Up => if bp.y < 2 then none else some (⟨bp.x, bp.y - 1⟩, ⟨bp.x, bp.y - 2⟩)
      | .Down => some (⟨bp.x, bp.y + 1⟩, ⟨bp.x, bp.y + 2⟩)
      | .Left => if bp.x < 2 then none else some (⟨bp.x - 1, bp.y⟩, ⟨bp.x - 2, bp.y⟩)
      | .Right => some (⟨bp.x + 1, bp.y⟩, ⟨bp.x + 2, bp.y⟩)
    match shifted with
    | none => some (false, S)
    | some (box_to, player_to) =>
      if (S.get_ntype box_to).can_move && (S.get_ntype player_to).can_move then
        match S.can_reach box_to with
        | none => none
        | some true =>
          some (true, { S with boxes := S.boxes.set box_index box_to,
                               player := some player_to })
        | some false => some (false, S)
      else some (false, S)

/-- `Sokoban::undo_move_box` from `src/sokoban.rs`: player is set to the
    box's current position, then the box is shifted one cell backwards.
    `none` models the index panic and the checked `usize` underflow of the
    backward shift. -/
def undo_move_box (S : Sokoban) (box_index : Nat) (direction : Direction) :
    Option Sokoban :=
  match S.boxes.get? box_index with
  | none => none
  | some bp =>
    let back : Option Position :=
      match direction with
      | .Up => some ⟨bp.x, bp.y + 1⟩
      | .Down => if bp.y = 0 then none else some ⟨bp.x, bp.y - 1⟩
      | .Left => some ⟨bp.x + 1, bp.y⟩
      | .Right => if bp.x = 0 then none else some ⟨bp.x - 1, bp.y⟩
    match back with
    | none => none
    | some b2 => some { S with player := some bp, boxes := S.boxes.set box_index b2 }

/-- `Sokoban::print_level` from `src/sokoban.rs`, at the level of digit
    values: the two zero-padded 2-digit fields (height then width) followed
    by the composite kind value of every cell in row-major order.  (The
    source's `{:02}` padding agrees with this for the in-scope boards,
    whose dimensions are at most 99.) -/
def print_level (S : Sokoban) : List Nat :=
  S.height / 10 :: S.height % 10 :: S.width / 10 :: S.width % 10 ::
    (List.range S.height).flatMap
      (fun y => (List.range S.width).map (fun x => (S.get_ntype ⟨x, y⟩).toNat))

/-- Accumulator of `Sokoban::build`'s decoding loop (its local `map`,
    `player`, `boxes`, `goals`). -/
structure BuildAcc where
  map : List (Position × NodeType)
  player : Option Position
  boxes : List Position
  goals : List Position
deriving DecidableEq

/-- One iteration of the decoding loop in `Sokoban::build`: decode the digit
    (`none` models the `unwrap` panic on a digit outside the table), clear a
    player/box marker out of the static kind, record player/boxes/goals, and
    insert the static kind into the map. -/
def build_cell (tbl : Nat → Option NodeType) (pos : Position) (d : Nat)
    (acc : BuildAcc) : Option BuildAcc :=
  match tbl d with
  | none => none
  | some t0 =>
    let st1 :=
      if t0.is_player then
        (if t0 = NodeType.Player then NodeType.Empty else NodeType.Whole, some pos)
      else (t0, acc.player)
    let st2 :=
      if st1.1.is_box then
        ((if st1.1 = NodeType.Box then NodeType.Empty else NodeType.Whole),
          acc.boxes ++ [pos])
      else (st1.1, acc.boxes)
    let goals2 := if st2.1.is_whole then acc.goals ++ [pos] else acc.goals
    some { map := (pos, st2.1) :: acc.map, player := st1.2,
           boxes := st2.2, goals := goals2 }

/-- The decoding loop of `Sokoban::build`: `n` cells remain, `k` is the
    row-major index of the next cell, `ds` the remaining digits (`none`
    when the digit stream runs out early, modeling `level.next().unwrap()`). -/
def build_loop (tbl : Nat → Option NodeType) (width : Nat) :
    Nat → Nat → List Nat → BuildAcc → Option BuildAcc
  | 0, _, _, acc => some acc
  | _ + 1, _, [], _ => none
  | n + 1, k, d :: ds, acc =>
    match build_cell tbl ⟨k % width, k / width⟩ d acc with
    | none => none
    | some acc2 => build_loop tbl width n (k + 1) ds acc2

/-- `Sokoban::build` from `src/sokoban.rs`, over the digit-value model of
    level strings (`parse_level` reads height then width from the two
    2-digit fields; a string shorter than 4 characters panics the slicing). -/
def build (tbl : Nat → Option NodeType) (level : List Nat) : Option Sokoban :=
  match level with
  | a :: b :: c :: d :: rest =>
    let height := a * 10 + b
    let width := c * 10 + d
    match build_loop tbl width (height * width) 0 rest
        { map := [], player := none, boxes := [], goals := [] } with
    | none => none
    | some acc =>
      some { height := height, width := width, map := acc.map,
             player := acc.player, boxes := acc.boxes, goals := acc.goals }
  | _ => none

/-- `Sokoban::new`. -/
def new (level : List Nat) : Option Sokoban :=
  build NodeType.build level

/-- `Sokoban::new_reverse`. -/
def new_reverse (level : List Nat) : Option Sokoban :=
  build NodeType.reverse_build level

end Sokoban

/-- Modelled from the spec: `Sokoban::get_future_position` is called by
    `Solver::should_cut_tree` (src/solver.rs line 322) but is missing from
    the source files under `src/`.  Per the spec's missing-helper note it is
    a pure function mirroring `move_box`'s position arithmetic for a box
    position and a direction, returning the hypothetical
    `(box_future, player_future)` pair, a not-applicable signal (modeled
    `none`) when a coordinate would underflow, and never mutating the
    board. -/
def Sokoban.get_future_position (_ : Sokoban) (pos : Position)
    (direction : Direction) : Option (Position × Position) :=
  match direction with
  | .Up => if pos.y < 2 then none else some (⟨pos.x, pos.y - 1⟩, ⟨pos.x, pos.y - 2⟩)
  | .Down => some (⟨pos.x, pos.y + 1⟩, ⟨pos.x, pos.y + 2⟩)
  | .Left => if pos.x < 2 then none else some (⟨pos.x - 1, pos.y⟩, ⟨pos.x - 2, pos.y⟩)
  | .Right => some (⟨pos.x + 1, pos.y⟩, ⟨pos.x + 2, pos.y⟩)

/-- The `Solver` struct from `src/solver.rs`; the memo map's `u64` hash keys
    are the (injectively modeled) hash values, i.e. reachability matrices. -/
structure Solver where
  heuristics : List (Nat × List (Position × Nat))
  state_map : List (Sokoban.Matrix × Nat)
  sokoban : Sokoban
  original_player : Position
  counter : Nat
deriving DecidableEq

namespace Solver

/-- Direction scan inside `Solver::should_cut_tree`: `continue` on a
    not-applicable direction or on a wall-blocked one, `false` as soon as a
    direction is blocked by something other than a wall (or not blocked at
    all), `true` when every direction ran out. -/
def cut_dirs (S : Sokoban) (bp : Position) : List Direction → Bool
  | [] => true
  | d :: rest =>
    match S.get_future_position bp d with
    | none => cut_dirs S bp rest
    | some (box_future, player_future) =>
      if S.get_ntype player_future == NodeType.Wall ||
          S.get_ntype box_future == NodeType.Wall then
        cut_dirs S bp rest
      else false

/-- `Solver::should_cut_tree` from `src/solver.rs`; `none` models the panic
    of `boxes[box_index]` on an out-of-range index. -/
def should_cut_tree (sv : Solver) (box_index : Nat) : Option Bool :=
  match sv.sokoban.boxes.get? box_index with
  | none => none
  | some bp =>
    if sv.sokoban.get_ntype bp = NodeType.BoxOnWhole then some false
    else
      some (cut_dirs sv.sokoban bp
        [Direction.Up, Direction.Down, Direction.Left, Direction.Right])

end Solver

/-- `Vec::remove_item`: remove the first occurrence of an element. -/
def remove_item {α : Type} [DecidableEq α] : List α → α → List α
  | [], _ => []
  | x :: xs, a => if x = a then xs else x :: remove_item xs a

/-- First element of a list satisfying a predicate (the `for … break`
    searches in `Solver::new`'s helpers). -/
def find_first {α : Type} (p : α → Bool) : List α → Option α
  | [] => none
  | x :: xs => if p x then some x else find_first p xs

namespace Solver

/-- Inner `for adjacent` loop of `Solver::heuristic_bfs`.  The queue is a
    `Vec` with `insert(0, ·)` at the head and `pop` from the tail; `none`
    models the `distance.get(&current).unwrap()` panic. -/
def bfs_adj (S : Sokoban) (current : Position) :
    List Position → List Position → List Position → List (Position × Nat) →
    Option (List Position × List Position × List (Position × Nat))
  | [], state, queue, dist => some (state, queue, dist)
  | a :: rest, state, queue, dist =>
    if state.contains a then bfs_adj S current rest state queue dist
    else
      let state2 := state ++ [a]
      if S.get_ntype a ≠ NodeType.Wall then
        match alist_get dist current with
        | none => none
        | some dc => bfs_adj S current rest state2 (a :: queue) ((a, dc + 1) :: dist)
      else bfs_adj S current rest state2 queue dist

/-- The `while let Some(current) = queue.pop()` loop of
    `Solver::heuristic_bfs`, with fuel. -/
def bfs_loop (S : Sokoban) :
    Nat → List Position → List Position → List (Position × Nat) →
    Option (List (Position × Nat))
  | 0, _, _, _ => none
  | fuel + 1, state, queue, dist =>
    match queue.getLast? with
    | none => some dist
    | some current =>
      match bfs_adj S current (loop_positions current) state queue.dropLast dist with
      | none => none
      | some (state2, queue2, dist2) => bfs_loop S fuel state2 queue2 dist2

/-- `Solver::heuristic_bfs` from `src/solver.rs`: wall-only hop distances
    from `goal` to every cell its flood reaches.  The fuel bounds the number
    of queue pops; every enqueued cell is distinct and lies in a
    `(width+2) × (height+2)` box around the grid, so the chosen fuel is
    sufficient for the boards this is invoked on. -/
def heuristic_bfs (S : Sokoban) (goal : Position) : Option (List (Position × Nat)) :=
  bfs_loop S ((S.width + 2) * (S.height + 2) + 2) [goal] [goal] [(goal, 0)]

/-- Index loop of `Solver::build_heuristics`. -/
def build_heuristics_loop (S : Sokoban) :
    List Nat → List (Nat × List (Position × Nat)) →
    Option (List (Nat × List (Position × Nat)))
  | [], acc => some acc
  | i :: rest, acc =>
    match S.boxes.get? i with
    | none => none
    | some b =>
      match heuristic_bfs S b with
      | none => none
      | some d => build_heuristics_loop S rest ((i, d) :: acc)

/-- `Solver::build_heuristics` from `src/solver.rs`. -/
def build_heuristics (S : Sokoban) : Option (List (Nat × List (Position × Nat))) :=
  build_heuristics_loop S (List.range S.boxes.length) []

/-- `Solver::new` from `src/solver.rs`, with the struct literal's fields
    evaluated in their written order; `none` models any panic, in
    particular `sokoban.player.unwrap()` on a player-less level. -/
def new (level : List Nat) : Option Solver :=
  match Sokoban.new level with
  | none => none
  | some sokobanF =>
    match build_heuristics sokobanF with
    | none => none
    | some hs =>
      match Sokoban.new_reverse level with
      | none => none
      | some rev =>
        match sokobanF.player with
        | none => none
        | some op =>
          some { heuristics := hs, state_map := [], sokoban := rev,
                 original_player := op, counter := 0 }

/-- `Solver::get_heuristic`: `none` is a panic (`goals[goal_index]` or
    `heuristics[&box_index]`), `some none` the recoverable no-bound case. -/
def get_heuristic (sv : Solver) (goal_index box_index : Nat) : Option (Option Nat) :=
  match sv.sokoban.goals.get? goal_index with
  | none => none
  | some g =>
    match alist_get sv.heuristics box_index with
    | none => none
    | some tbl => some (alist_get tbl g)

/-- `Solver::been_here` from `src/solver.rs`. -/
def been_here (sv : Solver) (depth : Nat) : Option (Bool × Solver) :=
  match sv.sokoban.get_hash with
  | none => none
  | some h =>
    match alist_get sv.state_map h with
    | some d =>
      if depth ≥ d then some (true, sv)
      else some (false, { sv with state_map := (h, depth) :: sv.state_map })
    | none => some (false, { sv with state_map := (h, depth) :: sv.state_map })

/-- `Solver::is_solved` from `src/solver.rs` (the `&&` short-circuits, so
    `can_reach` only runs when the board is resolved). -/
def is_solved (sv : Solver) : Option Bool :=
  if sv.sokoban.is_resolved then sv.sokoban.can_reach sv.original_player
  else some false

/-- Adjacent-cell handling of one popped cell in `Solver::player_zones`. -/
def pz_adj (S : Sokoban) :
    List Position → List Position → List Position → Bool →
    List Position × List Position × Bool
  | [], unvisited, queue, has_box => (unvisited, queue, has_box)
  | a :: rest, unvisited, queue, has_box =>
    let t := S.get_ntype a
    let hb := has_box || t.is_box
    if unvisited.contains a then
      let u2 := remove_item unvisited a
      if t.can_move then pz_adj S rest u2 (a :: queue) hb
      else pz_adj S rest u2 queue hb
    else pz_adj S rest unvisited queue hb

/-- The inner `while let Some(current) = queue.pop()` flood of
    `Solver::player_zones`, with fuel. -/
def pz_flood (S : Sokoban) :
    Nat → List Position → List Position → Bool → Option Position →
    Option (List Position × Bool × Option Position)
  | 0, _, _, _, _ => none
  | fuel + 1, unvisited, queue, has_box, last =>
    match queue.getLast? with
    | none => some (unvisited, has_box, last)
    | some current =>
      let u1 := remove_item unvisited current
      match pz_adj S (loop_positions current) u1 queue.dropLast has_box with
      | (u2, q2, hb) => pz_flood S fuel u2 q2 hb (some current)

/-- The outer `loop` of `Solver::player_zones`, with fuel (each round
    removes at least one cell from `unvisited`). -/
def pz_outer (S : Sokoban) :
    Nat → List Position → List Position → List Position → Option (List Position)
  | 0, _, _, _ => none
  | fuel + 1, unvisited, queue, zones =>
    match pz_flood S (unvisited.length + queue.length + 1) unvisited queue false none with
    | none => none
    | some (u2, has_box, last) =>
      let zones2 :=
        match last with
        | some lp => if has_box then zones ++ [lp] else zones
        | none => zones
      if u2.isEmpty then some zones2
      else
        match find_first (fun p => (S.get_ntype p).can_move) u2 with
        | some p => pz_outer S fuel u2 [p] zones2
        | none => some zones2

/-- `Solver::player_zones` from `src/solver.rs`.  `HashMap` key iteration
    has no specified order; the model fixes the association-list order. -/
def player_zones (sv : Solver) : Option (List Position) :=
  let S := sv.sokoban
  let keys := S.map.map Prod.fst
  let queue0 :=
    match find_first (fun p => S.get_ntype p == NodeType.Empty) keys with
    | some p => [p]
    | none => []
  pz_outer S (keys.length + 1) keys queue0 []

end Solver

/-- Outcome of the direction loop in `solve_dfs`: an immediate solved
    return, or a finished/broken loop together with its `is_blocked` flag. -/
inductive DirRes where
  | solved
  | finished (is_blocked : Bool)
deriving DecidableEq

/-- Outcome of the goal/box loops in `solve_dfs`: solved propagation, the
    tree-cut `return false`, or natural loop completion. -/
inductive LoopRes where
  | solved
  | cut
  | done
deriving DecidableEq

/-- The `for _dir in 0..4` loop of `Solver::solve_dfs`.  A failing heuristic
    lookup `continue`s without advancing the direction (the advance is the
    final statement of the loop body in the source, and `continue` skips
    it); the cost comparison reduces the sum `% 2^64`, the release-mode
    wrapping of the `usize` addition. -/
def dir_loop (recurse : Solver → Nat → Nat → Nat → Direction → Nat → Nat → Option (Bool × Solver))
    (start_cost cgi cbi cost_limit depth : Nat) :
    Nat → Direction → Bool → Solver → Option (DirRes × Solver)
  | 0, _, is_blocked, sv => some (.finished is_blocked, sv)
  | k + 1, dir, is_blocked, sv =>
    match sv.get_heuristic cgi cbi with
    | none => none
    | some none => dir_loop recurse start_cost cgi cbi cost_limit depth k dir is_blocked sv
    | some (some hv) =>
      if (start_cost + hv) % USIZE > cost_limit then some (.finished is_blocked, sv)
      else
        match sv.sokoban.move_box cbi dir with
        | none => none
        | some (false, sk) =>
          dir_loop recurse start_cost cgi cbi cost_limit depth k dir.next is_blocked
            { sv with sokoban := sk }
        | some (true, sk) =>
          let sv1 := { sv with sokoban := sk, counter := sv.counter + 1 }
          match recurse sv1 (start_cost + 1) cgi cbi dir cost_limit (depth + 1) with
          | none => none
          | some (solvedQ, sv2) =>
            match sv2.sokoban.undo_move_box cbi dir with
            | none => none
            | some sk2 =>
              let sv3 := { sv2 with sokoban := sk2 }
              if solvedQ then some (.solved, sv3)
              else dir_loop recurse start_cost cgi cbi cost_limit depth k dir.next false sv3

/-- The `for i in 0..match_length` goal loop of `Solver::solve_dfs`; on a
    blocked pair the cut decision evaluates `should_cut_tree` on the
    `box_index` parameter of the enclosing `solve_dfs` call (exactly as the
    source does at line 292 — not on the rotated current box index). -/
def goal_loop (recurse : Solver → Nat → Nat → Nat → Direction → Nat → Nat → Option (Bool × Solver))
    (start_cost goal_index box_index cbi : Nat) (prev_dir : Direction)
    (cost_limit depth match_length : Nat) :
    Nat → Nat → Solver → Option (LoopRes × Solver)
  | 0, _, sv => some (.done, sv)
  | rem + 1, i, sv =>
    let cgi := (goal_index + i) % match_length
    match dir_loop recurse start_cost cgi cbi cost_limit depth 4 prev_dir true sv with
    | none => none
    | some (.solved, sv2) => some (.solved, sv2)
    | some (.finished is_blocked, sv2) =>
      if is_blocked then
        match sv2.should_cut_tree box_index with
        | none => none
        | some c => if c then some (.cut, sv2) else some (.done, sv2)
      else
        goal_loop recurse start_cost goal_index box_index cbi prev_dir cost_limit
          depth match_length rem (i + 1) sv2

/-- The `for j in 0..match_length` box loop of `Solver::solve_dfs`. -/
def box_loop (recurse : Solver → Nat → Nat → Nat → Direction → Nat → Nat → Option (Bool × Solver))
    (start_cost goal_index box_index : Nat) (prev_dir : Direction)
    (cost_limit depth match_length : Nat) :
    Nat → Nat → Solver → Option (LoopRes × Solver)
  | 0, _, sv => some (.done, sv)
  | rem + 1, j, sv =>
    let cbi := (box_index + j) % match_length
    match goal_loop recurse start_cost goal_index box_index cbi prev_dir cost_limit
        depth match_length match_length 0 sv with
    | none => none
    | some (.solved, sv2) => some (.solved, sv2)
    | some (.cut, sv2) => some (.cut, sv2)
    | some (.done, sv2) =>
      box_loop recurse start_cost goal_index box_index prev_dir cost_limit depth
        match_length rem (j + 1) sv2

/-- `Solver::solve_dfs` from `src/solver.rs`, with fuel bounding the
    recursion depth. -/
def solve_dfs : Nat → Solver → Nat → Nat → Nat → Direction → Nat → Nat →
    Option (Bool × Solver)
  | 0, _, _, _, _, _, _, _ => none
  | fuel + 1, sv, start_cost, goal_index, box_index, prev_dir, cost_limit, depth =>
    match sv.is_solved with
    | none => none
    | some true => some (true, sv)
    | some false =>
      match sv.been_here depth with
      | none => none
      | some (true, sv1) => some (false, sv1)
      | some (false, sv1) =>
        let match_length := sv1.sokoban.boxes.length
        match box_loop (solve_dfs fuel) start_cost goal_index box_index prev_dir
            cost_limit depth match_length match_length 0 sv1 with
        | none => none
        | some (.solved, sv2) => some (true, sv2)
        | some (.cut, sv2) => some (false, sv2)
        | some (.done, sv2) => some (false, sv2)

/-- The `for player in self.player_zones()` loop of `Solver::solve_sokoban`:
    each zone candidate is installed as the player and searched with
    `cost_limit = usize::max_value()`. -/
def solve_zones (fuel : Nat) : List Position → Solver → Option (Bool × Solver)
  | [], sv => some (false, sv)
  | z :: rest, sv =>
    let sv1 := { sv with sokoban := { sv.sokoban with player := some z } }
    match solve_dfs fuel sv1 0 0 0 Direction.Up (USIZE - 1) 0 with
    | none => none
    | some (true, sv2) => some (true, sv2)
    | some (false, sv2) => solve_zones fuel rest sv2

/-- `Solver::solve_sokoban` from `src/solver.rs`. -/
def solve_sokoban (fuel : Nat) (sv : Solver) : Option (Bool × Solver) :=
  match sv.player_zones with
  | none => none
  | some zones => solve_zones fuel zones sv

/-- Variant of the direction loop with the cost-pruning comparison removed —
    the spec's description of the search without the never-firing
    cost-limit hook (and hence without the `cost_limit` parameter). -/
def dir_loop_np (recurse : Solver → Nat → Nat → Nat → Direction → Nat → Option (Bool × Solver))
    (start_cost cgi cbi depth : Nat) :
    Nat → Direction → Bool → Solver → Option (DirRes × Solver)
  | 0, _, is_blocked, sv => some (.finished is_blocked, sv)
  | k + 1, dir, is_blocked, sv =>
    match sv.get_heuristic cgi cbi with
    | none => none
    | some none => dir_loop_np recurse start_cost cgi cbi depth k dir is_blocked sv
    | some (some _) =>
      match sv.sokoban.move_box cbi dir with
      | none => none
      | some (false, sk) =>
        dir_loop_np recurse start_cost cgi cbi depth k dir.next is_blocked
          { sv with sokoban := sk }
      | some (true, sk) =>
        let sv1 := { sv with sokoban := sk, counter := sv.counter + 1 }
        match recurse sv1 (start_cost + 1) cgi cbi dir (depth + 1) with
        | none => none
        | some (solvedQ, sv2) =>
          match sv2.sokoban.undo_move_box cbi dir with
          | none => none
          | some sk2 =>
            let sv3 := { sv2 with sokoban := sk2 }
            if solvedQ then some (.solved, sv3)
            else dir_loop_np recurse start_cost cgi cbi depth k dir.next false sv3

/-- Goal loop of the no-cost-pruning variant. -/
def goal_loop_np (recurse : Solver → Nat → Nat → Nat → Direction → Nat → Option (Bool × Solver))
    (start_cost goal_index box_index cbi : Nat) (prev_dir : Direction)
    (depth match_length : Nat) :
    Nat → Nat → Solver → Option (LoopRes × Solver)
  | 0, _, sv => some (.done, sv)
  | rem + 1, i, sv =>
    let cgi := (goal_index + i) % match_length
    match dir_loop_np recurse start_cost cgi cbi depth 4 prev_dir true sv with
    | none => none
    | some (.solved, sv2) => some (.solved, sv2)
    | some (.finished is_blocked, sv2) =>
      if is_blocked then
        match sv2.should_cut_tree box_index with
        | none => none
        | some c => if c then some (.cut, sv2) else some (.done, sv2)
      else
        goal_loop_np recurse start_cost goal_index box_index cbi prev_dir depth
          match_length rem (i + 1) sv2

/-- Box loop of the no-cost-pruning variant. -/
def box_loop_np (recurse : Solver → Nat → Nat → Nat → Direction → Nat → Option (Bool × Solver))
    (start_cost goal_index box_index : Nat) (prev_dir : Direction)
    (depth match_length : Nat) :
    Nat → Nat → Solver → Option (LoopRes × Solver)
  | 0, _, sv => some (.done, sv)
  | rem + 1, j, sv =>
    let cbi := (box_index + j) % match_length
    match goal_loop_np recurse start_cost goal_index box_index cbi prev_dir depth
        match_length match_length 0 sv with
    | none => none
    | some (.solved, sv2) => some (.solved, sv2)
    | some (.cut, sv2) => some (.cut, sv2)
    | some (.done, sv2) =>
      box_loop_np recurse start_cost goal_index box_index prev_dir depth
        match_length rem (j + 1) sv2

/-- `solve_dfs` of the no-cost-pruning variant. -/
def solve_dfs_np : Nat → Solver → Nat → Nat → Nat → Direction → Nat →
    Option (Bool × Solver)
  | 0, _, _, _, _, _, _ => none
  | fuel + 1, sv, start_cost, goal_index, box_index, prev_dir, depth =>
    match sv.is_solved with
    | none => none
    | some true => some (true, sv)
    | some false =>
      match sv.been_here depth with
      | none => none
      | some (true, sv1) => some (false, sv1)
      | some (false, sv1) =>
        let match_length := sv1.sokoban.boxes.length
        match box_loop_np (solve_dfs_np fuel) start_cost goal_index box_index
            prev_dir depth match_length match_length 0 sv1 with
        | none => none
        | some (.solved, sv2) => some (true, sv2)
        | some (.cut, sv2) => some (false, sv2)
        | some (.done, sv2) => some (false, sv2)

/-- Zone loop of the no-cost-pruning variant. -/
def solve_zones_np (fuel : Nat) : List Position → Solver → Option (Bool × Solver)
  | [], sv => some (false, sv)
  | z :: rest, sv =>
    let sv1 := { sv with sokoban := { sv.sokoban with player := some z } }
    match solve_dfs_np fuel sv1 0 0 0 Direction.Up 0 with
    | none => none
    | some (true, sv2) => some (true, sv2)
    | some (false, sv2) => solve_zones_np fuel rest sv2

/-- `solve_sokoban` of the no-cost-pruning variant. -/
def solve_sokoban_np (fuel : Nat) (sv : Solver) : Option (Bool × Solver) :=
  match sv.player_zones with
  | none => none
  | some zones => solve_zones_np fuel zones sv

/-- Syntactic validity of a (forward- or reverse-table) level string in the
    digit-value model: two 2-digit fields followed by exactly
    `height * width` digits, each between 0 and 6. -/
def valid_level (L : List Nat) : Bool :=
  match L with
  | a :: b :: c :: d :: rest =>
    a ≤ 9 && b ≤ 9 && c ≤ 9 && d ≤ 9 &&
      rest.length == (a * 10 + b) * (c * 10 + d) && rest.all (fun v => v ≤ 6)
  | _ => false

/-- One-cell shift of a position in a direction (the box destination
    `box_to` of `move_box`'s arithmetic). -/
def shift1 (p : Position) : Direction → Position
  | .Up => ⟨p.x, p.y - 1⟩
  | .Down => ⟨p.x, p.y + 1⟩
  | .Left => ⟨p.x - 1, p.y⟩
  | .Right => ⟨p.x + 1, p.y⟩

/-- Two-cell shift of a position in a direction (the player destination
    `player_to` of `move_box`'s arithmetic). -/
def shift2 (p : Position) : Direction → Position
  | .Up => ⟨p.x, p.y - 2⟩
  | .Down => ⟨p.x, p.y + 2⟩
  | .Left => ⟨p.x - 2, p.y⟩
  | .Right => ⟨p.x + 2, p.y⟩

/-- The Up/Left single-digit underflow guard of `move_box`: the move is not
    rejected outright iff the moved coordinate is at least 2. -/
def underflow_ok (p : Position) : Direction → Bool
  | .Up => decide (2 ≤ p.y)
  | .Down => true
  | .Left => decide (2 ≤ p.x)
  | .Right => true

/-! ### Helper lemmas -/

theorem move_box_unfold (S : Sokoban) (i : Nat) (d : Direction) (bp : Position)
    (h : S.boxes.get? i = some bp) :
    S.move_box i d =
      if underflow_ok bp d then
        if (S.get_ntype (shift1 bp d)).can_move && (S.get_ntype (shift2 bp d)).can_move then
          match S.can_reach (shift1 bp d) with
          | none => none
          | some true =>
            some (true, { S with boxes := S.boxes.set i (shift1 bp d),
                                 player := some (shift2 bp d) })
          | some false => some (false, S)
        else some (false, S)
      else some (false, S) := by
  unfold Sokoban.move_box
  rw [h]
  cases d
  case Up =>
    simp only [shift1, shift2, underflow_ok]
    rcases Nat.lt_or_ge bp.y 2 with hy | hy
    · simp [hy, Nat.not_le.2 hy]
    · simp [Nat.not_lt.2 hy, hy]
  case Down => rfl
  case Left =>
    simp only [shift1, shift2, underflow_ok]
    rcases Nat.lt_or_ge bp.x 2 with hx | hx
    · simp [hx, Nat.not_le.2 hx]
    · simp [Nat.not_lt.2 hx, hx]
  case Right => rfl

theorem get?_set_self {α : Type} (l : List α) (i : Nat) (a : α) (h : i < l.length) :
    (l.set i a).get? i = some a := by
  induction l generalizing i with
  | nil => simp at h
  | cons x xs ih =>
    cases i with
    | zero => rfl
    | succ n => simpa using ih n (by simpa using h)

theorem set_get?_self {α : Type} (l : List α) (i : Nat) (a : α)
    (h : l.get? i = some a) : l.set i a = l := by
  induction l generalizing i with
  | nil => simp at h
  | cons x xs ih =>
    cases i with
    | zero => simp_all
    | succ n => simpa using ih n (by simpa using h)

/-! ### Concrete boards used as witnesses and counterexamples -/

/-- Empty fallback board for extracting concrete decoded boards. -/
def board0 : Sokoban := { width := 0, height := 0, map := [], player := none,
                          goals := [], boxes := [] }

/-- Level `0305 11111 14031 11111`: a wall-rimmed 5×3 corridor with the
    player at (1,1) and one box at (3,1); pulling the box Left succeeds. -/
def levelA : List Nat := [0,3,0,5, 1,1,1,1,1, 1,4,0,3,1, 1,1,1,1,1]

def boardA : Sokoban := (Sokoban.new levelA).getD board0

def boardA_moved : Sokoban :=
  (match boardA.move_box 0 Direction.Left with
   | some (_, s) => s
   | none => board0)

def boardA_undone : Sokoban :=
  (match boardA_moved.undo_move_box 0 Direction.Left with
   | some s => s
   | none => board0)

/-- Level `0406 111111 103001 131041 111111`: box 0 at (2,1) is free to its
    right; box 1 at (1,2) is wall-stuck in all four directions. -/
def levelB : List Nat :=
  [0,4,0,6, 1,1,1,1,1,1, 1,0,3,0,0,1, 1,3,1,0,4,1, 1,1,1,1,1,1]

def boardB : Sokoban := (Sokoban.new levelB).getD board0

def solverB : Solver :=
  { heuristics := [], state_map := [], sokoban := boardB,
    original_player := ⟨4, 2⟩, counter := 0 }

/-- Level `0305 11111 14051 11111`: one box sitting on a goal cell at (3,1). -/
def levelC : List Nat := [0,3,0,5, 1,1,1,1,1, 1,4,0,5,1, 1,1,1,1,1]

def boardC : Sokoban := (Sokoban.new levelC).getD board0

def solverC : Solver :=
  { heuristics := [], state_map := [], sokoban := boardC,
    original_player := ⟨1, 1⟩, counter := 0 }

/-! ### C1 -/

/-- C1: `move_box(i, d)` returns true and applies the move (box to
    `box_to = shift1`, player to `player_to = shift2`) iff the Up/Left
    underflow guard passes, both destination composite kinds are movable
    (out-of-bounds reading as Wall inside `get_ntype`), and the reachable
    set computed from the current player contains `box_to`; any false
    return leaves `boxes` and `player` unchanged. -/
theorem C1_move_box_iff (S : Sokoban) (i : Nat) (d : Direction) (bp : Position)
    (h : S.boxes.get? i = some bp) :
    (S.move_box i d = some (true,
        { S with boxes := S.boxes.set i (shift1 bp d),
                 player := some (shift2 bp d) })
      ↔ underflow_ok bp d = true ∧
        (S.get_ntype (shift1 bp d)).can_move = true ∧
        (S.get_ntype (shift2 bp d)).can_move = true ∧
        S.can_reach (shift1 bp d) = some true) ∧
    (∀ S2 : Sokoban, S.move_box i d = some (false, S2) →
      S2.boxes = S.boxes ∧ S2.player = S.player) := by
  rw [move_box_unfold S i d bp h]
  by_cases hg : underflow_ok bp d = true
  · rw [if_pos hg]
    by_cases hc : ((S.get_ntype (shift1 bp d)).can_move &&
        (S.get_ntype (shift2 bp d)).can_move) = true
    · rw [if_pos hc]
      rcases Bool.and_eq_true .. |>.mp hc with ⟨hc1, hc2⟩
      rcases hr : S.can_reach (shift1 bp d) with - | b
      · simp [hg, hc1, hc2, hr]
      · cases b <;> simp [hg, hc1, hc2, hr]
    · rw [if_neg hc]
      constructor
      · constructor
        · intro he
          simp at he
        · rintro ⟨-, h1, h2, -⟩
          exact absurd (by rw [h1, h2]; rfl) hc
      · rintro S2 hS2
        cases Option.some.injEq .. ▸ hS2
        exact ⟨rfl, rfl⟩
  · rw [if_neg hg]
    constructor
    · constructor
      · intro he
        simp at he
      · rintro ⟨h1, -⟩
        exact absurd h1 hg
    · rintro S2 hS2
      cases Option.some.injEq .. ▸ hS2
      exact ⟨rfl, rfl⟩

/-- C1 witness: on `boardA` the hypothesis holds for box 0 and the theorem
    applies at the concrete input. -/
theorem C1_witness :
    boardA.boxes.get? 0 = some ⟨3, 1⟩ ∧
    ((boardA.move_box 0 Direction.Left = some (true,
        { boardA with boxes := boardA.boxes.set 0 (shift1 ⟨3, 1⟩ Direction.Left),
                      player := some (shift2 ⟨3, 1⟩ Direction.Left) })
      ↔ underflow_ok ⟨3, 1⟩ Direction.Left = true ∧
        (boardA.get_ntype (shift1 ⟨3, 1⟩ Direction.Left)).can_move = true ∧
        (boardA.get_ntype (shift2 ⟨3, 1⟩ Direction.Left)).can_move = true ∧
        boardA.can_reach (shift1 ⟨3, 1⟩ Direction.Left) = some true) ∧
    (∀ S2 : Sokoban, boardA.move_box 0 Direction.Left = some (false, S2) →
      S2.boxes = boardA.boxes ∧ S2.player = boardA.player)) :=
  ⟨by decide, C1_move_box_iff boardA 0 Direction.Left ⟨3, 1⟩ (by decide)⟩

theorem undo_unfold (S : Sokoban) (i : Nat) (d : Direction) (bt : Position)
    (h : S.boxes.get? i = some bt) :
    S.undo_move_box i d =
      match d with
      | .Up => some { S with player := some bt,
                             boxes := S.boxes.set i ⟨bt.x, bt.y + 1⟩ }
      | .Down => if bt.y = 0 then none else
          some { S with player := some bt, boxes := S.boxes.set i ⟨bt.x, bt.y - 1⟩ }
      | .Left => some { S with player := some bt,
                               boxes := S.boxes.set i ⟨bt.x + 1, bt.y⟩ }
      | .Right => if bt.x = 0 then none else
          some { S with player := some bt, boxes := S.boxes.set i ⟨bt.x - 1, bt.y⟩ } := by
  unfold Sokoban.undo_move_box
  rw [h]
  cases d
  case Up => rfl
  case Down => by_cases h0 : bt.y = 0 <;> simp [h0]
  case Left => rfl
  case Right => by_cases h0 : bt.x = 0 <;> simp [h0]

/-! ### C2 -/

/-- C2 counterexample: on `boardA` the Left pull succeeds, the immediate
    undo restores the box, but the player ends on the box's post-move cell
    (2,1), not on the prior box Position (3,1) as the claim states. -/
theorem C2_counterexample :
    boardA.move_box 0 Direction.Left = some (true, boardA_moved) ∧
    boardA_moved.undo_move_box 0 Direction.Left = some boardA_undone ∧
    boardA_undone.boxes.get? 0 = boardA.boxes.get? 0 ∧
    boardA.boxes.get? 0 = some ⟨3, 1⟩ ∧
    boardA_undone.player = some ⟨2, 1⟩ ∧
    boardA_undone.player ≠ boardA.boxes.get? 0 := by
  decide

/-- C2 amended: after a successful `move_box(i, d)`, `undo_move_box(i, d)`
    restores the whole `boxes` sequence (in particular `boxes[i]` to its
    prior Position) and sets the player to the cell the box occupied
    immediately after the move — `box_to`, one cell in `d` from the
    restored box Position — not to the prior box Position. -/
theorem C2_amended_undo (S : Sokoban) (i : Nat) (d : Direction) (bp : Position)
    (Sa : Sokoban) (h : S.boxes.get? i = some bp)
    (hm : S.move_box i d = some (true, Sa)) :
    ∃ Su : Sokoban, Sa.undo_move_box i d = some Su ∧
      Su.boxes = S.boxes ∧ Su.player = some (shift1 bp d) := by
  rw [move_box_unfold S i d bp h] at hm
  by_cases hg : underflow_ok bp d = true
  · rw [if_pos hg] at hm
    by_cases hc : ((S.get_ntype (shift1 bp d)).can_move &&
        (S.get_ntype (shift2 bp d)).can_move) = true
    · rw [if_pos hc] at hm
      rcases hr : S.can_reach (shift1 bp d) with - | b
      · rw [hr] at hm
        simp at hm
      · rcases b with - | -
        · rw [hr] at hm
          simp at hm
        · rw [hr] at hm
          have hSa : Sa = { S with boxes := S.boxes.set i (shift1 bp d),
                                   player := some (shift2 bp d) } :=
            ((congrArg Prod.snd (Option.some.inj hm))).symm
          subst hSa
          have hbt : (S.boxes.set i (shift1 bp d)).get? i = some (shift1 bp d) := by
            obtain ⟨hlen, -⟩ := List.get?_eq_some.1 h
            exact get?_set_self _ _ _ (by simpa using hlen)
          rw [undo_unfold _ i d (shift1 bp d) hbt]
          rcases d with - | - | - | -
          · have h2y : 2 ≤ bp.y := of_decide_eq_true hg
            have hback : (⟨(shift1 bp .Up).x, (shift1 bp .Up).y + 1⟩ : Position) = bp := by
              simp only [shift1]
              exact congrArg (Position.mk bp.x) (Nat.sub_add_cancel (le_trans (by omega) h2y))
            refine ⟨_, rfl, ?_, rfl⟩
            simp only [hback, List.set_set]
            exact set_get?_self _ _ _ h
          · have h0 : ¬ (shift1 bp .Down).y = 0 := by
              simp [shift1]
            rw [if_neg h0]
            have hback : (⟨(shift1 bp .Down).x, (shift1 bp .Down).y - 1⟩ : Position) = bp := by
              simp [shift1]
            refine ⟨_, rfl, ?_, rfl⟩
            simp only [hback, List.set_set]
            exact set_get?_self _ _ _ h
          · have h2x : 2 ≤ bp.x := of_decide_eq_true hg
            have hback : (⟨(shift1 bp .Left).x + 1, (shift1 bp .Left).y⟩ : Position) = bp := by
              simp only [shift1]
              exact congrArg (fun t => Position.mk t bp.y)
                (Nat.sub_add_cancel (le_trans (by omega) h2x))
            refine ⟨_, rfl, ?_, rfl⟩
            simp only [hback, List.set_set]
            exact set_get?_self _ _ _ h
          · have h0 : ¬ (shift1 bp .Right).x = 0 := by
              simp [shift1]
            rw [if_neg h0]
            have hback : (⟨(shift1 bp .Right).x - 1, (shift1 bp .Right).y⟩ : Position) = bp := by
              simp [shift1]
            refine ⟨_, rfl, ?_, rfl⟩
            simp only [hback, List.set_set]
            exact set_get?_self _ _ _ h
    · rw [if_neg hc] at hm
      simp at hm
  · rw [if_neg hg] at hm
    simp at hm

/-- C2 witness: the amended inverse law applied on `boardA`. -/
theorem C2_witness :
    ∃ Su : Sokoban, boardA_moved.undo_move_box 0 Direction.Left = some Su ∧
      Su.boxes = boardA.boxes ∧ Su.player = some (shift1 ⟨3, 1⟩ Direction.Left) :=
  C2_amended_undo boardA 0 Direction.Left ⟨3, 1⟩ boardA_moved (by decide) (by decide)

/-! ### C9 -/

/-- C9: `should_cut_tree` returns false for every box that currently sits
    on a goal cell (composite kind `BoxOnWhole`), on any solver state. -/
theorem C9_no_cut_on_goal (sv : Solver) (i : Nat) (bp : Position)
    (h : sv.sokoban.boxes.get? i = some bp)
    (hgoal : sv.sokoban.get_ntype bp = NodeType.BoxOnWhole) :
    sv.should_cut_tree i = some false := by
  unfold Solver.should_cut_tree
  rw [h]
  simp [hgoal]

/-- C9 witness: `solverC` has its box 0 on a goal cell and the theorem
    applies there. -/
theorem C9_witness : solverC.should_cut_tree 0 = some false :=
  C9_no_cut_on_goal solverC 0 ⟨3, 1⟩ (by decide) (by decide)

/-! ### C6 -/

/-- C6: concrete divergence input for the cut decision.  On `boardB` the
    box with rotated index 1 is blocked in all four directions (every
    `move_box` fails), and `should_cut_tree` answers true for box 1 but
    false for box 0; `solve_dfs` entered with `box_index = 0` evaluates the
    cut decision for the blocked rotated box 1 on index 0 (see `goal_loop`,
    mirroring src/solver.rs line 292), i.e. on a box for which the answer
    differs from the currently tried box's. -/
theorem C6_cut_decision_divergence :
    boardB.move_box 1 Direction.Up = some (false, boardB) ∧
    boardB.move_box 1 Direction.Down = some (false, boardB) ∧
    boardB.move_box 1 Direction.Left = some (false, boardB) ∧
    boardB.move_box 1 Direction.Right = some (false, boardB) ∧
    solverB.should_cut_tree 1 = some true ∧
    solverB.should_cut_tree 0 = some false := by
  decide

/-! ### Characterization of the decoding loop -/

/-- The static kind `Sokoban::build` stores for a decoded tile kind: player
    and box markers are cleared to the floor underneath. -/
def static_of (t : NodeType) : NodeType :=
  if t.is_player then (if t = NodeType.Player then .Empty else .Whole)
  else if t.is_box then (if t = NodeType.Box then .Empty else .Whole)
  else t

/-- The row-major cell positions of `n` consecutive cell indices starting
    at `k`, on width `w`. -/
def cellsOf (w : Nat) : Nat → Nat → List Position
  | _, 0 => []
  | k, n + 1 => ⟨k % w, k / w⟩ :: cellsOf w (k + 1) n

/-- The decoding loop's effect on an accumulator, expressed over the list
    of (cell, decoded kind) pairs. -/
def acc_spec (zs : List (Position × NodeType)) (acc : Sokoban.BuildAcc) :
    Sokoban.BuildAcc :=
  { map := zs.foldl (fun mp pt => (pt.1, static_of pt.2) :: mp) acc.map,
    player := zs.foldl (fun pl pt => if pt.2.is_player then some pt.1 else pl) acc.player,
    boxes := acc.boxes ++ zs.filterMap (fun pt => if pt.2.is_box then some pt.1 else none),
    goals := acc.goals ++
      zs.filterMap (fun pt => if static_of pt.2 = NodeType.Whole then some pt.1 else none) }

theorem build_cell_eq (tbl : Nat → Option NodeType) (pos : Position) (d : Nat)
    (t : NodeType) (acc : Sokoban.BuildAcc) (h : tbl d = some t) :
    Sokoban.build_cell tbl pos d acc = some
      { map := (pos, static_of t) :: acc.map,
        player := if t.is_player then some pos else acc.player,
        boxes := if t.is_box then acc.boxes ++ [pos] else acc.boxes,
        goals := if static_of t = NodeType.Whole then acc.goals ++ [pos]
                 else acc.goals } := by
  unfold Sokoban.build_cell
  rw [h]
  cases t <;> rfl

theorem build_loop_eq (tbl : Nat → Option NodeType) (w : Nat) :
    ∀ (ds : List Nat) (ts : List NodeType) (k : Nat) (acc : Sokoban.BuildAcc),
      ds.map tbl = ts.map some →
      Sokoban.build_loop tbl w ds.length k ds acc =
        some (acc_spec ((cellsOf w k ds.length).zip ts) acc) := by
  intro ds
  induction ds with
  | nil =>
    intro ts k acc h
    cases ts with
    | nil => simp [Sokoban.build_loop, acc_spec, cellsOf]
    | cons t ts2 => simp at h
  | cons d ds ih =>
    intro ts k acc h
    cases ts with
    | nil => simp at h
    | cons t ts2 =>
      simp only [List.map_cons, List.cons.injEq] at h
      obtain ⟨h1, h2⟩ := h
      show Sokoban.build_loop tbl w (ds.length + 1) k (d :: ds) acc = _
      unfold Sokoban.build_loop
      rw [build_cell_eq tbl _ d t acc h1]
      dsimp only
      rw [ih ts2 (k + 1) _ h2]
      simp only [cellsOf, List.zip_cons_cons, acc_spec, List.foldl_cons,
        List.filterMap_cons, List.length_cons]
      by_cases hb : t.is_box = true <;>
        by_cases hw : static_of t = NodeType.Whole <;>
          simp [hb, hw]

theorem exists_decode (tbl : Nat → Option NodeType) :
    ∀ ds : List Nat, (∀ x ∈ ds, (tbl x).isSome = true) →
      ∃ ts : List NodeType, ds.map tbl = List.map some ts := by
  intro ds
  induction ds with
  | nil => exact fun _ => ⟨[], rfl⟩
  | cons d ds ih =>
    intro h
    obtain ⟨t, ht⟩ := Option.isSome_iff_exists.1 (h d (by simp))
    obtain ⟨ts, hts⟩ := ih (fun x hx => h x (by simp [hx]))
    exact ⟨t :: ts, by simp [ht, hts]⟩

theorem build_isSome (d : Nat) (h : d ≤ 6) : (NodeType.build d).isSome = true := by
  interval_cases d <;> rfl

theorem reverse_build_isSome (d : Nat) (h : d ≤ 6) :
    (NodeType.reverse_build d).isSome = true := by
  interval_cases d <;> rfl

theorem cellsOf_length (w : Nat) : ∀ (n k : Nat), (cellsOf w k n).length = n := by
  intro n
  induction n with
  | zero => intro k; rfl
  | succ n ih => intro k; simp [cellsOf, ih]

theorem cellsOf_get? (w : Nat) :
    ∀ (n j k : Nat), j < n →
      (cellsOf w k n).get? j = some ⟨(k + j) % w, (k + j) / w⟩ := by
  intro n
  induction n with
  | zero => intro j k h; omega
  | succ n ih =>
    intro j k h
    cases j with
    | zero => simp [cellsOf]
    | succ j =>
      have := ih j (k + 1) (by omega)
      simpa [cellsOf, Nat.add_assoc, Nat.add_comm 1 j] using this

theorem cellsOf_mem (w : Nat) :
    ∀ (n k : Nat) (q : Position),
      q ∈ cellsOf w k n ↔ ∃ j, j < n ∧ q = ⟨(k + j) % w, (k + j) / w⟩ := by
  intro n
  induction n with
  | zero => intro k q; simp [cellsOf]
  | succ n ih =>
    intro k q
    simp only [cellsOf, List.mem_cons, ih (k + 1) q]
    constructor
    · rintro (rfl | ⟨j, hj, rfl⟩)
      · exact ⟨0, by omega, by simp⟩
      · exact ⟨j + 1, by omega, by rw [show k + 1 + j = k + (j + 1) by omega]⟩
    · rintro ⟨j, hj, rfl⟩
      cases j with
      | zero => left; simp
      | succ j => right; exact ⟨j, by omega, by rw [show k + (j + 1) = k + 1 + j by omega]⟩

theorem pos_inj (w i j : Nat)
    (h : (⟨i % w, i / w⟩ : Position) = ⟨j % w, j / w⟩) : i = j := by
  have h1 : i % w = j % w := congrArg Position.x h
  have h2 : i / w = j / w := congrArg Position.y h
  rw [← Nat.div_add_mod i w, ← Nat.div_add_mod j w, h1, h2]

theorem cellsOf_nodup (w : Nat) :
    ∀ (n k : Nat), (cellsOf w k n).Nodup := by
  intro n
  induction n with
  | zero => intro k; exact List.nodup_nil
  | succ n ih =>
    intro k
    refine List.Nodup.cons ?_ (ih (k + 1))
    intro hmem
    obtain ⟨j, hj, hq⟩ := (cellsOf_mem w n (k + 1) _).1 hmem
    have := pos_inj w k (k + 1 + j) hq
    omega

theorem lookup_prepend_not_mem :
    ∀ (zs base : List (Position × NodeType)) (q : Position),
      (∀ pt ∈ zs, pt.1 ≠ q) →
      alist_get (zs.foldl (fun mp pt => (pt.1, static_of pt.2) :: mp) base) q =
        alist_get base q := by
  intro zs
  induction zs with
  | nil => intro base q h; rfl
  | cons pt zs ih =>
    intro base q h
    rw [List.foldl_cons, ih _ q (fun x hx => h x (by simp [hx]))]
    have : ¬ pt.1 = q := h pt (by simp)
    simp [alist_get, this]

theorem lookup_prepend_mem :
    ∀ (zs base : List (Position × NodeType)) (q : Position) (t : NodeType),
      (zs.map Prod.fst).Nodup → (q, t) ∈ zs →
      alist_get (zs.foldl (fun mp pt => (pt.1, static_of pt.2) :: mp) base) q =
        some (static_of t) := by
  intro zs
  induction zs with
  | nil => intro base q t _ h; simp at h
  | cons pt zs ih =>
    intro base q t hnd hmem
    rw [List.map_cons, List.nodup_cons] at hnd
    rcases List.mem_cons.1 hmem with heq | htail
    · cases heq
      rw [List.foldl_cons,
        lookup_prepend_not_mem zs _ q
          (fun x hx hq => hnd.1 (by simpa [← hq] using List.mem_map_of_mem Prod.fst hx))]
      simp [alist_get]
    · exact List.foldl_cons .. ▸ ih _ q t hnd.2 htail

theorem player_fold_no_player :
    ∀ (zs : List (Position × NodeType)) (pl0 : Option Position),
      (∀ pt ∈ zs, pt.2.is_player = false) →
      zs.foldl (fun pl pt => if pt.2.is_player then some pt.1 else pl) pl0 = pl0 := by
  intro zs
  induction zs with
  | nil => intro pl0 _; rfl
  | cons pt zs ih =>
    intro pl0 h
    rw [List.foldl_cons, if_neg (by simp [h pt (by simp)]),
      ih pl0 (fun x hx => h x (by simp [hx]))]

theorem player_fold_cases :
    ∀ (zs : List (Position × NodeType)) (pl0 : Option Position),
      zs.foldl (fun pl pt => if pt.2.is_player then some pt.1 else pl) pl0 = pl0 ∨
      ∃ pt ∈ zs, pt.2.is_player = true ∧
        zs.foldl (fun pl pt => if pt.2.is_player then some pt.1 else pl) pl0 = some pt.1 := by
  intro zs
  induction zs with
  | nil => intro pl0; exact Or.inl rfl
  | cons pt zs ih =>
    intro pl0
    rw [List.foldl_cons]
    by_cases hp : pt.2.is_player = true
    · rw [if_pos hp]
      rcases ih (some pt.1) with h | ⟨pt2, hmem, hp2, h⟩
      · exact Or.inr ⟨pt, by simp, hp, h⟩
      · exact Or.inr ⟨pt2, by simp [hmem], hp2, h⟩
    · rw [if_neg hp]
      rcases ih pl0 with h | ⟨pt2, hmem, hp2, h⟩
      · exact Or.inl h
      · exact Or.inr ⟨pt2, by simp [hmem], hp2, h⟩

theorem player_fold_unique :
    ∀ (zs : List (Position × NodeType)) (q : Position) (t : NodeType),
      zs.countP (fun pt => pt.2.is_player) ≤ 1 → (q, t) ∈ zs → t.is_player = true →
      zs.foldl (fun pl pt => if pt.2.is_player then some pt.1 else pl) none = some q := by
  intro zs
  induction zs with
  | nil => intro q t _ h _; simp at h
  | cons pt zs ih =>
    intro q t hcount hmem hp
    rw [List.foldl_cons]
    by_cases hp0 : pt.2.is_player = true
    · rw [if_pos hp0]
      rw [List.countP_cons_of_pos _ _ (by simpa using hp0)] at hcount
      have hz : zs.countP (fun pt => pt.2.is_player) = 0 := by omega
      have hall := List.countP_eq_zero.1 hz
      rcases List.mem_cons.1 hmem with heq | htail
      · cases heq
        exact player_fold_no_player zs _ (fun x hx => by
          have := hall x hx
          simpa using this)
      · exact absurd hp (by have := hall _ htail; simpa using this)
    · rw [if_neg hp0]
      rw [List.countP_cons_of_neg _ _ (by simpa using hp0)] at hcount
      rcases List.mem_cons.1 hmem with heq | htail
      · cases heq; exact absurd hp hp0
      · exact ih q t hcount htail hp

theorem fst_nodup_unique {β : Type} :
    ∀ (l : List (Position × β)) (a : Position) (b1 b2 : β),
      (l.map Prod.fst).Nodup → (a, b1) ∈ l → (a, b2) ∈ l → b1 = b2 := by
  intro l
  induction l with
  | nil => intro a b1 b2 _ h; simp at h
  | cons pt l ih =>
    intro a b1 b2 hnd h1 h2
    rw [List.map_cons, List.nodup_cons] at hnd
    rcases List.mem_cons.1 h1 with he1 | ht1 <;> rcases List.mem_cons.1 h2 with he2 | ht2
    · rw [← he2] at he1; exact congrArg Prod.snd (he1)
    · cases he1; exact absurd (List.mem_map_of_mem Prod.fst ht2) hnd.1
    · cases he2; exact absurd (List.mem_map_of_mem Prod.fst ht1) hnd.1
    · exact ih a b1 b2 hnd.2 ht1 ht2

theorem contains_iff {α : Type} [DecidableEq α] (l : List α) (a : α) :
    l.contains a = true ↔ a ∈ l := by
  induction l with
  | nil => simp
  | cons x xs ih => by_cases hx : a = x <;> simp [hx, ih]

theorem countP_zip_snd {α : Type} (p : NodeType → Bool) :
    ∀ (l1 : List α) (l2 : List NodeType), l1.length = l2.length →
      (l1.zip l2).countP (fun pt => p pt.2) = l2.countP p := by
  intro l1
  induction l1 with
  | nil =>
    intro l2 h
    cases l2 with
    | nil => rfl
    | cons t l2 => simp at h
  | cons x l1 ih =>
    intro l2 h
    cases l2 with
    | nil => simp at h
    | cons t l2 =>
      simp only [List.zip_cons_cons, List.countP_cons, ih l2 (by simpa using h)]

theorem zip_get?_mem {α β : Type} :
    ∀ (l1 : List α) (l2 : List β) (j : Nat) (a : α) (b : β),
      l1.get? j = some a → l2.get? j = some b → (a, b) ∈ l1.zip l2 := by
  intro l1
  induction l1 with
  | nil => intro l2 j a b h1 _; simp [List.get?] at h1
  | cons x l1 ih =>
    intro l2 j a b h1 h2
    cases l2 with
    | nil => simp [List.get?] at h2
    | cons y l2 =>
      cases j with
      | zero =>
        cases Option.some.inj h1
        cases Option.some.inj h2
        exact List.mem_cons_self _ _
      | succ j => exact List.mem_cons_of_mem _ (ih l2 j a b h1 h2)

theorem build_eq (tbl : Nat → Option NodeType) (a b c d : Nat) (rest : List Nat)
    (ts : List NodeType) (hts : rest.map tbl = List.map some ts)
    (hlen : rest.length = (a * 10 + b) * (c * 10 + d)) :
    Sokoban.build tbl (a :: b :: c :: d :: rest) = some
      { height := a * 10 + b, width := c * 10 + d,
        map := ((cellsOf (c * 10 + d) 0 rest.length).zip ts).foldl
          (fun mp pt => (pt.1, static_of pt.2) :: mp) [],
        player := ((cellsOf (c * 10 + d) 0 rest.length).zip ts).foldl
          (fun pl pt => if pt.2.is_player then some pt.1 else pl) none,
        boxes := ((cellsOf (c * 10 + d) 0 rest.length).zip ts).filterMap
          (fun pt => if pt.2.is_box then some pt.1 else none),
        goals := ((cellsOf (c * 10 + d) 0 rest.length).zip ts).filterMap
          (fun pt => if static_of pt.2 = NodeType.Whole then some pt.1 else none) } := by
  unfold Sokoban.build
  dsimp only
  rw [show (a * 10 + b) * (c * 10 + d) = rest.length from hlen.symm]
  rw [build_loop_eq tbl (c * 10 + d) rest ts 0 _ hts]
  simp [acc_spec]

theorem built_get_ntype (tbl : Nat → Option NodeType) (a b c d : Nat)
    (rest : List Nat) (ts : List NodeType) (S : Sokoban)
    (hts : rest.map tbl = List.map some ts)
    (hlen : rest.length = (a * 10 + b) * (c * 10 + d))
    (hS : Sokoban.build tbl (a :: b :: c :: d :: rest) = some S)
    (hp1 : ts.countP (fun t => t.is_player) ≤ 1)
    (j : Nat) (t : NodeType) (hj : ts.get? j = some t) :
    S.get_ntype ⟨j % (c * 10 + d), j / (c * 10 + d)⟩ = t := by
  rw [build_eq tbl a b c d rest ts hts hlen] at hS
  cases Option.some.inj hS
  set w := c * 10 + d with hwdef
  set n := rest.length with hndef
  have hts_len : ts.length = n := by
    have := congrArg List.length hts
    simpa using this.symm
  obtain ⟨hjlt0, -⟩ := List.get?_eq_some.1 hj
  have hjlt : j < n := hts_len ▸ hjlt0
  set cells := cellsOf w 0 n with hcells
  set zs := cells.zip ts with hzs
  have hcl : cells.length = n := cellsOf_length w n 0
  have hfst : zs.map Prod.fst = cells :=
    List.map_fst_zip cells ts (by rw [hcl, hts_len])
  have hnd : (zs.map Prod.fst).Nodup := by
    rw [hfst]; exact cellsOf_nodup w n 0
  have hq : cells.get? j = some ⟨j % w, j / w⟩ := by
    have := cellsOf_get? w n j 0 hjlt
    simpa using this
  have hmemz : ((⟨j % w, j / w⟩ : Position), t) ∈ zs := zip_get?_mem cells ts j _ _ hq hj
  have hcount : zs.countP (fun pt => pt.2.is_player) ≤ 1 := by
    rw [hzs, countP_zip_snd _ cells ts (hcl.trans hts_len.symm)]
    exact hp1
  have hlook : alist_get
      (zs.foldl (fun mp pt => (pt.1, static_of pt.2) :: mp) []) ⟨j % w, j / w⟩ =
      some (static_of t) := lookup_prepend_mem zs [] _ t hnd hmemz
  have hbox : (zs.filterMap
      (fun pt => if pt.2.is_box then some pt.1 else none)).contains
        (⟨j % w, j / w⟩ : Position) = t.is_box := by
    rcases hb : t.is_box with - | -
    · refine Bool.eq_false_iff.2 (fun hc => ?_)
      obtain ⟨pt, hpt, hf⟩ := List.mem_filterMap.1 ((contains_iff _ _).1 hc)
      rcases pt with ⟨p1, t2⟩
      by_cases hb2 : t2.is_box = true
      · rw [if_pos hb2] at hf
        cases Option.some.inj hf
        have := fst_nodup_unique zs _ t2 t hnd hpt hmemz
        rw [this] at hb2
        rw [hb2] at hb
        cases hb
      · rw [if_neg hb2] at hf
        cases hf
    · exact (contains_iff _ _).2
        (List.mem_filterMap.2 ⟨_, hmemz, by rw [if_pos hb]⟩)
  have hplayer : (t.is_player = true ∧
      zs.foldl (fun pl pt => if pt.2.is_player then some pt.1 else pl) none =
        some ⟨j % w, j / w⟩) ∨
      (t.is_player = false ∧
        (zs.foldl (fun pl pt => if pt.2.is_player then some pt.1 else pl) none = none ∨
         ∃ c : Position,
           zs.foldl (fun pl pt => if pt.2.is_player then some pt.1 else pl) none = some c ∧
           (⟨j % w, j / w⟩ : Position) ≠ c)) := by
    rcases hp : t.is_player with - | -
    · right
      refine ⟨rfl, ?_⟩
      rcases player_fold_cases zs none with h0 | ⟨pt, hpt, hpp, h0⟩
      · exact Or.inl h0
      · refine Or.inr ⟨pt.1, h0, fun hqc => ?_⟩
        have hmem2 : ((⟨j % w, j / w⟩ : Position), pt.2) ∈ zs := by
          rw [hqc]; exact hpt
        have := fst_nodup_unique zs _ pt.2 t hnd hmem2 hmemz
        rw [this] at hpp
        rw [hpp] at hp
        cases hp
    · exact Or.inl ⟨rfl, player_fold_unique zs _ t hcount hmemz hp⟩
  show Sokoban.get_ntype _ _ = t
  unfold Sokoban.get_ntype
  dsimp only
  rw [hlook]
  simp only [hbox]
  rcases hplayer with ⟨hp, hpl⟩ | ⟨hp, hpl | ⟨c, hpl, hqc⟩⟩
  · rw [hpl]
    cases t <;>
      first
        | exact Bool.noConfusion hp
        | simp [static_of, NodeType.is_player, NodeType.is_box]
  · rw [hpl]
    cases t <;>
      first
        | exact Bool.noConfusion hp
        | simp [static_of, NodeType.is_player, NodeType.is_box]
  · rw [hpl]
    cases t <;>
      first
        | exact Bool.noConfusion hp
        | simp [hqc, static_of, NodeType.is_player, NodeType.is_box]

theorem build_toNat (d : Nat) (t : NodeType) (hd : d ≤ 6)
    (h : NodeType.build d = some t) : t.toNat = d := by
  interval_cases d <;> cases Option.some.inj h <;> rfl

theorem map_some_pointwise (tbl : Nat → Option NodeType) (ds : List Nat)
    (ts : List NodeType) (h : ds.map tbl = List.map some ts) (j : Nat)
    (dj : Nat) (tj : NodeType) (hd : ds.get? j = some dj) (ht : ts.get? j = some tj) :
    tbl dj = some tj := by
  have h1 := congrArg (fun l => List.get? l j) h
  simp only [List.get?_map, hd, ht, Option.map_some'] at h1
  exact Option.some.inj h1

theorem length_filterMap_if {α β : Type} (p : α → Bool) (f : α → β) :
    ∀ l : List α,
      (l.filterMap (fun x => if p x then some (f x) else none)).length = l.countP p := by
  intro l
  induction l with
  | nil => rfl
  | cons x l ih =>
    by_cases hp : p x = true <;>
      simp [List.filterMap_cons, List.countP_cons, hp, ih]

theorem countP_decode (tbl : Nat → Option NodeType) (p : NodeType → Bool)
    (q : Nat → Bool) (hrel : ∀ d t, tbl d = some t → p t = q d) :
    ∀ (ds : List Nat) (ts : List NodeType), ds.map tbl = List.map some ts →
      ts.countP p = ds.countP q := by
  intro ds
  induction ds with
  | nil =>
    intro ts h
    cases ts with
    | nil => rfl
    | cons t ts => simp at h
  | cons d ds ih =>
    intro ts h
    cases ts with
    | nil => simp at h
    | cons t ts =>
      simp only [List.map_cons, List.cons.injEq] at h
      rw [List.countP_cons, List.countP_cons, ih ts h.2, hrel d t h.1]

theorem countP_disjoint {α : Type} (p q : α → Bool)
    (hd : ∀ x, ¬(p x = true ∧ q x = true)) :
    ∀ l : List α, l.countP (fun x => p x || q x) = l.countP p + l.countP q := by
  intro l
  induction l with
  | nil => rfl
  | cons x l ih =>
    simp only [List.countP_cons, ih]
    by_cases hp : p x = true
    · have hq : ¬ q x = true := fun hq => hd x ⟨hp, hq⟩
      simp [hp, hq]
      omega
    · by_cases hq : q x = true <;> simp [hp, hq] <;> omega

theorem flatMap_range_eq (F : Nat → Nat → Nat) (g : Nat → Nat) (w : Nat) :
    ∀ h : Nat, (∀ x y, x < w → y < h → F x y = g (y * w + x)) →
      (List.range h).flatMap (fun y => (List.range w).map (fun x => F x y)) =
        (List.range (h * w)).map g := by
  intro h
  induction h with
  | zero => intro _; simp
  | succ h ih =>
    intro hF
    rw [List.range_succ, List.flatMap_append,
      ih (fun x y hx hy => hF x y hx (by omega))]
    have h2 : (List.range w).map (fun x => F x h) =
        (List.range w).map (fun x => g (h * w + x)) := by
      apply List.map_congr_left
      intro x hx
      exact hF x h (List.mem_range.1 hx) (by omega)
    rw [List.flatMap_singleton, h2]
    rw [show (h + 1) * w = h * w + w by ring, List.range_add, List.map_append,
      List.map_map]
    rfl

theorem map_range_get (l : List Nat) (g : Nat → Nat)
    (h : ∀ j dj, l.get? j = some dj → g j = dj) :
    (List.range l.length).map g = l := by
  apply List.ext_get
  · simp
  · intro i h1 h2
    rw [List.get_map, List.get_range]
    exact h i (l.get ⟨i, h2⟩) (List.get?_eq_get h2)

theorem length_filterMap_ite {α β : Type} (P : α → Prop) [DecidablePred P] (f : α → β) :
    ∀ l : List α,
      (l.filterMap (fun x => if P x then some (f x) else none)).length =
        l.countP (fun x => decide (P x)) := by
  intro l
  induction l with
  | nil => rfl
  | cons x l ih =>
    by_cases hp : P x <;>
      simp [List.filterMap_cons, List.countP_cons, hp, ih]

theorem fwd_player_rel (d : Nat) (t : NodeType) (h : NodeType.build d = some t) :
    t.is_player = (d == 4 || d == 6) := by
  rcases d with - | - | - | - | - | - | - | d <;>
    first
      | (cases Option.some.inj h; rfl)
      | exact Option.noConfusion h

theorem fwd_box_rel (d : Nat) (t : NodeType) (h : NodeType.build d = some t) :
    t.is_box = (d == 3 || d == 5) := by
  rcases d with - | - | - | - | - | - | - | d <;>
    first
      | (cases Option.some.inj h; rfl)
      | exact Option.noConfusion h

theorem fwd_goal_rel (d : Nat) (t : NodeType) (h : NodeType.build d = some t) :
    decide (static_of t = NodeType.Whole) = (d == 2 || (d == 5 || d == 6)) := by
  rcases d with - | - | - | - | - | - | - | d <;>
    first
      | (cases Option.some.inj h; rfl)
      | exact Option.noConfusion h

theorem rev_box_rel (d : Nat) (t : NodeType) (h : NodeType.reverse_build d = some t) :
    t.is_box = (d == 2 || (d == 5 || d == 6)) := by
  rcases d with - | - | - | - | - | - | - | d <;>
    first
      | (cases Option.some.inj h; rfl)
      | exact Option.noConfusion h

theorem rev_goal_rel (d : Nat) (t : NodeType) (h : NodeType.reverse_build d = some t) :
    decide (static_of t = NodeType.Whole) = (d == 3 || d == 5) := by
  rcases d with - | - | - | - | - | - | - | d <;>
    first
      | (cases Option.some.inj h; rfl)
      | exact Option.noConfusion h

theorem valid_level_cases (L : List Nat) (hv : valid_level L = true) :
    ∃ a b c d rest, L = a :: b :: c :: d :: rest ∧ a ≤ 9 ∧ b ≤ 9 ∧ c ≤ 9 ∧ d ≤ 9 ∧
      rest.length = (a * 10 + b) * (c * 10 + d) ∧ ∀ v ∈ rest, v ≤ 6 := by
  rcases L with - | ⟨a, - | ⟨b, - | ⟨c, - | ⟨d, rest⟩⟩⟩⟩
  · exact Bool.noConfusion hv
  · exact Bool.noConfusion hv
  · exact Bool.noConfusion hv
  · exact Bool.noConfusion hv
  · unfold valid_level at hv
    simp only [Bool.and_eq_true, decide_eq_true_eq, beq_iff_eq,
      List.all_eq_true] at hv
    obtain ⟨⟨⟨⟨⟨h1, h2⟩, h3⟩, h4⟩, h5⟩, h6⟩ := hv
    exact ⟨a, b, c, d, rest, rfl, h1, h2, h3, h4, h5, h6⟩

theorem built_print (tbl : Nat → Option NodeType) (a b c d : Nat)
    (rest : List Nat) (ts : List NodeType) (S : Sokoban)
    (hts : rest.map tbl = List.map some ts)
    (hlen : rest.length = (a * 10 + b) * (c * 10 + d))
    (hS : Sokoban.build tbl (a :: b :: c :: d :: rest) = some S)
    (hp1 : ts.countP (fun t => t.is_player) ≤ 1)
    (htoNat : ∀ j dj tj, rest.get? j = some dj → ts.get? j = some tj → tj.toNat = dj)
    (ha : a ≤ 9) (hb : b ≤ 9) (hc : c ≤ 9) (hd : d ≤ 9) :
    S.print_level = a :: b :: c :: d :: rest := by
  have hget := built_get_ntype tbl a b c d rest ts S hts hlen hS hp1
  have hwidth : S.width = c * 10 + d := by
    rw [build_eq tbl a b c d rest ts hts hlen] at hS
    cases Option.some.inj hS
    rfl
  have hheight : S.height = a * 10 + b := by
    rw [build_eq tbl a b c d rest ts hts hlen] at hS
    cases Option.some.inj hS
    rfl
  have hts_len : ts.length = rest.length := by
    simpa using (congrArg List.length hts).symm
  unfold Sokoban.print_level
  rw [hwidth, hheight]
  have e1 : (a * 10 + b) / 10 = a := by omega
  have e2 : (a * 10 + b) % 10 = b := by omega
  have e3 : (c * 10 + d) / 10 = c := by omega
  have e4 : (c * 10 + d) % 10 = d := by omega
  rw [e1, e2, e3, e4]
  refine congrArg (fun l => a :: b :: c :: d :: l) ?_
  rw [flatMap_range_eq (fun x y => (S.get_ntype ⟨x, y⟩).toNat)
    (fun j => (S.get_ntype ⟨j % (c * 10 + d), j / (c * 10 + d)⟩).toNat)
    (c * 10 + d) (a * 10 + b) ?hF]
  case hF =>
    intro x y hx hy
    have hw0 : 0 < c * 10 + d := by omega
    have hmod : (y * (c * 10 + d) + x) % (c * 10 + d) = x := by
      rw [Nat.add_comm, Nat.add_mul_mod_self_right, Nat.mod_eq_of_lt hx]
    have hdiv : (y * (c * 10 + d) + x) / (c * 10 + d) = y := by
      rw [Nat.add_comm, Nat.add_mul_div_right _ _ hw0, Nat.div_eq_of_lt hx]
      omega
    simp only [hmod, hdiv]
  rw [show (a * 10 + b) * (c * 10 + d) = rest.length from hlen.symm]
  apply map_range_get
  intro j dj hdj
  have hjlt : j < ts.length := by
    rw [hts_len]
    exact (List.get?_eq_some.1 hdj).1
  have htj : ts.get? j = some (ts.get ⟨j, hjlt⟩) := List.get?_eq_get hjlt
  rw [hget j _ htj]
  exact htoNat j dj _ hdj htj

/-! ### C4 -/

/-- Level `010244`: syntactically valid but with two player markers; only
    the last one survives decoding, so the round trip is not the identity. -/
def levelD : List Nat := [0, 1, 0, 2, 4, 4]

def boardD : Sokoban := (Sokoban.new levelD).getD board0

/-- C4 counterexample: a syntactically valid forward-table level string on
    which encode ∘ decode is not the identity (the first of two player
    digits decodes to floor and prints back as 0). -/
theorem C4_counterexample :
    valid_level levelD = true ∧ Sokoban.new levelD = some boardD ∧
    boardD.print_level ≠ levelD ∧ boardD.print_level = [0, 1, 0, 2, 0, 4] := by
  decide

/-- C4 amended: for every syntactically valid forward-table level string
    with at most one player marker (digit 4 or 6), decoding succeeds and
    re-encoding reproduces the string byte-for-byte. -/
theorem C4_roundtrip (L : List Nat) (hv : valid_level L = true)
    (hp1 : (L.drop 4).countP (fun v => v == 4 || v == 6) ≤ 1) :
    ∃ S : Sokoban, Sokoban.new L = some S ∧ S.print_level = L := by
  obtain ⟨a, b, c, d, rest, rfl, ha, hb, hc, hd, hlen, hdig⟩ := valid_level_cases L hv
  obtain ⟨ts, hts⟩ := exists_decode _ rest (fun x hx => build_isSome x (hdig x hx))
  have hp1' : ts.countP (fun t => t.is_player) ≤ 1 := by
    rw [countP_decode NodeType.build _ (fun v => v == 4 || v == 6)
      fwd_player_rel rest ts hts]
    simpa using hp1
  refine ⟨_, build_eq NodeType.build a b c d rest ts hts hlen, ?_⟩
  exact built_print NodeType.build a b c d rest ts _ hts hlen
    (build_eq NodeType.build a b c d rest ts hts hlen) hp1'
    (fun j dj tj hdj htj =>
      build_toNat dj tj (hdig dj (List.get?_mem hdj))
        (map_some_pointwise NodeType.build rest ts hts j dj tj hdj htj))
    ha hb hc hd

/-- C4 witness: the round trip at the concrete one-box level `levelA`. -/
theorem C4_witness : ∃ S : Sokoban, Sokoban.new levelA = some S ∧
    S.print_level = levelA :=
  C4_roundtrip levelA (by decide) (by decide)

/-! ### C8 -/

def boardE : Sokoban := (Sokoban.new [0, 1, 0, 1, 3]).getD board0

/-- C8 counterexample: the syntactically valid level `01013` (a single box
    digit, no goal digit) decodes to a board with one box and no goal. -/
theorem C8_counterexample :
    valid_level [0, 1, 0, 1, 3] = true ∧ Sokoban.new [0, 1, 0, 1, 3] = some boardE ∧
    boardE.boxes.length = 1 ∧ boardE.goals.length = 0 ∧
    boardE.boxes.length ≠ boardE.goals.length := by
  decide

theorem built_counts (tbl : Nat → Option NodeType) (a b c d : Nat)
    (rest : List Nat) (ts : List NodeType) (S : Sokoban)
    (hts : rest.map tbl = List.map some ts)
    (hlen : rest.length = (a * 10 + b) * (c * 10 + d))
    (hS : Sokoban.build tbl (a :: b :: c :: d :: rest) = some S) :
    S.boxes.length = ts.countP (fun t => t.is_box) ∧
    S.goals.length = ts.countP (fun t => decide (static_of t = NodeType.Whole)) := by
  rw [build_eq tbl a b c d rest ts hts hlen] at hS
  cases Option.some.inj hS
  have hzlen : (cellsOf (c * 10 + d) 0 rest.length).length = ts.length := by
    rw [cellsOf_length]
    simpa using congrArg List.length hts
  constructor
  · exact (length_filterMap_if (fun pt : Position × NodeType => pt.2.is_box)
      Prod.fst _).trans (countP_zip_snd (fun t => t.is_box) _ ts hzlen)
  · exact (length_filterMap_ite
      (fun pt : Position × NodeType => static_of pt.2 = NodeType.Whole)
      Prod.fst _).trans
      (countP_zip_snd (fun t => decide (static_of t = NodeType.Whole)) _ ts hzlen)

/-- C8 amended: `boxes.len() == goals.len()` holds after construction under
    both digit tables for the syntactically valid level strings whose grid
    digits satisfy `count(3) = count(2) + count(6)` (equal numbers of box
    and goal markers — the digit-5 cells carry one of each), and both the
    box count and the goals sequence are preserved by every completed
    `move_box` and `undo_move_box` call. -/
theorem C8_box_goal_balance :
    (∀ L : List Nat, valid_level L = true →
      (L.drop 4).countP (fun v => v == 3) =
        (L.drop 4).countP (fun v => v == 2) + (L.drop 4).countP (fun v => v == 6) →
      (∃ S, Sokoban.new L = some S ∧ S.boxes.length = S.goals.length) ∧
      (∃ S, Sokoban.new_reverse L = some S ∧ S.boxes.length = S.goals.length)) ∧
    (∀ (S : Sokoban) (i : Nat) (d : Direction) (r : Bool) (S2 : Sokoban),
      S.move_box i d = some (r, S2) →
      S2.boxes.length = S.boxes.length ∧ S2.goals = S.goals) ∧
    (∀ (S : Sokoban) (i : Nat) (d : Direction) (S2 : Sokoban),
      S.undo_move_box i d = some S2 →
      S2.boxes.length = S.boxes.length ∧ S2.goals = S.goals) := by
  refine ⟨?_, ?_, ?_⟩
  · intro L hv hbal
    obtain ⟨a, b, c, d, rest, rfl, ha, hb, hc, hd, hlen, hdig⟩ := valid_level_cases L hv
    simp only [List.drop_succ_cons, List.drop_zero] at hbal
    have hc3 := countP_disjoint (fun v : Nat => v == 3) (fun v => v == 5)
      (by intro x ⟨h1, h2⟩; simp only [beq_iff_eq] at h1 h2; omega) rest
    have hc2 := countP_disjoint (fun v : Nat => v == 5) (fun v => v == 6)
      (by intro x ⟨h1, h2⟩; simp only [beq_iff_eq] at h1 h2; omega) rest
    have hc1 := countP_disjoint (fun v : Nat => v == 2) (fun v => v == 5 || v == 6)
      (by intro x ⟨h1, h2⟩
          simp only [beq_iff_eq, Bool.or_eq_true] at h1 h2
          omega) rest
    constructor
    · obtain ⟨ts, hts⟩ := exists_decode _ rest (fun x hx => build_isSome x (hdig x hx))
      obtain ⟨hbx, hgl⟩ := built_counts NodeType.build a b c d rest ts _ hts hlen
        (build_eq NodeType.build a b c d rest ts hts hlen)
      refine ⟨_, build_eq NodeType.build a b c d rest ts hts hlen, ?_⟩
      rw [hbx, hgl,
        countP_decode NodeType.build _ (fun v => v == 3 || v == 5) fwd_box_rel rest ts hts,
        countP_decode NodeType.build _ (fun v => v == 2 || (v == 5 || v == 6))
          fwd_goal_rel rest ts hts,
        hc3, hc1, hc2]
      omega
    · obtain ⟨ts, hts⟩ := exists_decode _ rest
        (fun x hx => reverse_build_isSome x (hdig x hx))
      obtain ⟨hbx, hgl⟩ := built_counts NodeType.reverse_build a b c d rest ts _ hts hlen
        (build_eq NodeType.reverse_build a b c d rest ts hts hlen)
      refine ⟨_, build_eq NodeType.reverse_build a b c d rest ts hts hlen, ?_⟩
      rw [hbx, hgl,
        countP_decode NodeType.reverse_build _ (fun v => v == 2 || (v == 5 || v == 6))
          rev_box_rel rest ts hts,
        countP_decode NodeType.reverse_build _ (fun v => v == 3 || v == 5)
          rev_goal_rel rest ts hts,
        hc3, hc1, hc2]
      omega
  · intro S i d r S2 hm
    rcases hbp : S.boxes.get? i with - | bp
    · unfold Sokoban.move_box at hm
      rw [hbp] at hm
      cases hm
    · rw [move_box_unfold S i d bp hbp] at hm
      by_cases hg : underflow_ok bp d = true
      · rw [if_pos hg] at hm
        by_cases hcm : ((S.get_ntype (shift1 bp d)).can_move &&
            (S.get_ntype (shift2 bp d)).can_move) = true
        · rw [if_pos hcm] at hm
          rcases hr : S.can_reach (shift1 bp d) with - | hb2
          · rw [hr] at hm; cases hm
          · rcases hb2 with - | -
            · rw [hr] at hm
              cases Option.some.inj hm
              exact ⟨rfl, rfl⟩
            · rw [hr] at hm
              cases Option.some.inj hm
              exact ⟨List.length_set .., rfl⟩
        · rw [if_neg hcm] at hm
          cases Option.some.inj hm
          exact ⟨rfl, rfl⟩
      · rw [if_neg hg] at hm
        cases Option.some.inj hm
        exact ⟨rfl, rfl⟩
  · intro S i d S2 hm
    rcases hbp : S.boxes.get? i with - | bp
    · unfold Sokoban.undo_move_box at hm
      rw [hbp] at hm
      cases hm
    · rw [undo_unfold S i d bp hbp] at hm
      rcases d with - | - | - | -
      · cases Option.some.inj hm
        exact ⟨List.length_set .., rfl⟩
      · by_cases h0 : bp.y = 0
        · rw [if_pos h0] at hm; cases hm
        · rw [if_neg h0] at hm
          cases Option.some.inj hm
          exact ⟨List.length_set .., rfl⟩
      · cases Option.some.inj hm
        exact ⟨List.length_set .., rfl⟩
      · by_cases h0 : bp.x = 0
        · rw [if_pos h0] at hm; cases hm
        · rw [if_neg h0] at hm
          cases Option.some.inj hm
          exact ⟨List.length_set .., rfl⟩

/-- C8 witness: the amended statement applied at the concrete balanced
    level `levelC` and at the successful move/undo on `boardA`. -/
theorem C8_witness :
    ((∃ S, Sokoban.new levelC = some S ∧ S.boxes.length = S.goals.length) ∧
     (∃ S, Sokoban.new_reverse levelC = some S ∧ S.boxes.length = S.goals.length)) ∧
    (boardA_moved.boxes.length = boardA.boxes.length ∧
      boardA_moved.goals = boardA.goals) ∧
    (boardA_undone.boxes.length = boardA_moved.boxes.length ∧
      boardA_undone.goals = boardA_moved.goals) :=
  ⟨C8_box_goal_balance.1 levelC (by decide) (by decide),
   C8_box_goal_balance.2.1 boardA 0 Direction.Left true boardA_moved (by decide),
   C8_box_goal_balance.2.2 boardA_moved 0 Direction.Left boardA_undone (by decide)⟩

/-! ### C10 -/

/-- C10: a syntactically valid level with no player marker decodes to a
    board with `player = None`, and `Solver::new` on it has no defined
    result (the model's `none`; in the source the construction panics at
    `sokoban.player.unwrap()`). -/
theorem C10_playerless (L : List Nat) (hv : valid_level L = true)
    (hnp : ∀ v ∈ L.drop 4, v ≠ 4 ∧ v ≠ 6) :
    (∃ S, Sokoban.new L = some S ∧ S.player = none) ∧ Solver.new L = none := by
  obtain ⟨a, b, c, d, rest, rfl, ha, hb, hc, hd, hlen, hdig⟩ := valid_level_cases L hv
  simp only [List.drop_succ_cons, List.drop_zero] at hnp
  obtain ⟨ts, hts⟩ := exists_decode _ rest (fun x hx => build_isSome x (hdig x hx))
  have hS := build_eq NodeType.build a b c d rest ts hts hlen
  have hpn : (((cellsOf (c * 10 + d) 0 rest.length).zip ts).foldl
      (fun pl pt => if pt.2.is_player then some pt.1 else pl) none : Option Position) =
      none := by
    apply player_fold_no_player
    intro pt hpt
    have htmem : pt.2 ∈ ts := (List.mem_zip hpt).2
    have : some pt.2 ∈ List.map some ts := List.mem_map_of_mem some htmem
    rw [← hts] at this
    obtain ⟨d0, hd0, hbuild⟩ := List.mem_map.1 this
    rw [fwd_player_rel d0 pt.2 hbuild]
    obtain ⟨hne4, hne6⟩ := hnp d0 hd0
    simp [hne4, hne6]
  obtain ⟨SF, hSF, hSFp⟩ :
      ∃ S, Sokoban.new (a :: b :: c :: d :: rest) = some S ∧ S.player = none :=
    ⟨_, hS, hpn⟩
  refine ⟨⟨SF, hSF, hSFp⟩, ?_⟩
  unfold Solver.new
  rw [hSF]
  dsimp only
  cases hh : Solver.build_heuristics SF with
  | none => rfl
  | some hs =>
    cases hr : Sokoban.new_reverse (a :: b :: c :: d :: rest) with
    | none => rfl
    | some rev =>
      rw [hSFp]

/-- C10 witness: the concrete player-less level `01010`. -/
theorem C10_witness :
    (∃ S, Sokoban.new [0, 1, 0, 1, 0] = some S ∧ S.player = none) ∧
    Solver.new [0, 1, 0, 1, 0] = none :=
  C10_playerless [0, 1, 0, 1, 0] (by decide) (by decide)

/-! ### Flood-fill theory: matrix lemmas -/

open Sokoban in
theorem get?_set_ne {α : Type} :
    ∀ (l : List α) (i j : Nat) (a : α), i ≠ j → (l.set i a).get? j = l.get? j := by
  intro l
  induction l with
  | nil => intro i j a _; simp
  | cons x xs ih =>
    intro i j a hij
    cases i with
    | zero =>
      cases j with
      | zero => exact absurd rfl hij
      | succ j => rfl
    | succ i =>
      cases j with
      | zero => rfl
      | succ j => simpa using ih i j a (by omega)

theorem set_oob {α : Type} :
    ∀ (l : List α) (i : Nat) (a : α), l.length ≤ i → l.set i a = l := by
  intro l
  induction l with
  | nil => intro i a _; rfl
  | cons x xs ih =>
    intro i a h
    cases i with
    | zero => simp at h
    | succ i => simpa using ih i a (by simpa using h)

open Sokoban in
theorem mset_of_mget_none (m : Matrix) (x y v : Nat) (h : mget m x y = none) :
    mset m x y v = m := by
  cases hx : List.get? (α := List Nat) m x with
  | none =>
    unfold Sokoban.mset
    rw [hx]
  | some col =>
    have hy : col.get? y = none := by
      unfold Sokoban.mget at h
      rw [hx] at h
      exact h
    have hyb : col.length ≤ y := by
      rcases Nat.lt_or_ge y col.length with h2 | h2
      · exfalso
        rw [List.get?_eq_get h2] at hy
        cases hy
      · exact h2
    unfold Sokoban.mset
    rw [hx]
    show List.set m x (col.set y v) = m
    rw [set_oob col y v hyb]
    exact set_get?_self _ _ _ hx

open Sokoban in
theorem mget_mset_self (m : Matrix) (x y v w0 : Nat) (h : mget m x y = some w0) :
    mget (mset m x y v) x y = some v := by
  cases hx : List.get? (α := List Nat) m x with
  | none =>
    unfold Sokoban.mget at h
    rw [hx] at h
    exact Option.noConfusion h
  | some col =>
    have hcol : col.get? y = some w0 := by
      unfold Sokoban.mget at h
      rw [hx] at h
      exact h
    have hy : y < col.length := by
      rcases Nat.lt_or_ge y col.length with h2 | h2
      · exact h2
      · rw [List.get?_eq_none.2 h2] at hcol; cases hcol
    have hxl : x < m.length := by
      rcases Nat.lt_or_ge x m.length with h2 | h2
      · exact h2
      · rw [List.get?_eq_none.2 h2] at hx; cases hx
    unfold Sokoban.mset
    rw [hx]
    show mget (List.set m x (col.set y v)) x y = some v
    unfold Sokoban.mget
    rw [get?_set_self _ x _ (by simpa using hxl)]
    show (col.set y v).get? y = some v
    exact get?_set_self _ y v (by simpa using hy)

open Sokoban in
theorem mget_mset_ne (m : Matrix) (x y v xp yp : Nat)
    (h : ¬(xp = x ∧ yp = y)) :
    mget (mset m x y v) xp yp = mget m xp yp := by
  cases hx : List.get? (α := List Nat) m x with
  | none =>
    unfold Sokoban.mset
    rw [hx]
  | some col =>
    have hxl : x < m.length := by
      rcases Nat.lt_or_ge x m.length with h2 | h2
      · exact h2
      · rw [List.get?_eq_none.2 h2] at hx; cases hx
    unfold Sokoban.mset
    rw [hx]
    show mget (List.set m x (col.set y v)) xp yp = mget m xp yp
    unfold Sokoban.mget
    by_cases hxx : xp = x
    · subst hxx
      rw [get?_set_self _ xp _ (by simpa using hxl), hx]
      have hyy : ¬ yp = y := fun hy2 => h ⟨rfl, hy2⟩
      show (col.set y v).get? yp = col.get? yp
      exact get?_set_ne col y yp v (fun he => hyy he.symm)
    · rw [get?_set_ne m x xp _ (fun he => hxx he.symm)]

open Sokoban in
theorem mset_shape (m : Matrix) (x y v : Nat) :
    (mset m x y v).map List.length = m.map List.length := by
  cases hx : List.get? (α := List Nat) m x with
  | none =>
    unfold Sokoban.mset
    rw [hx]
  | some col =>
    unfold Sokoban.mset
    rw [hx]
    show (List.set m x (col.set y v)).map List.length = m.map List.length
    rw [List.map_set]
    simp only [List.length_set]
    apply set_get?_self
    rw [List.get?_map, hx]
    rfl

open Sokoban in
/-- Evolution invariant of the flood fill: the shape is unchanged and every
    entry is either unchanged or overwritten with 1. -/
def EvOk (m m2 : Matrix) : Prop :=
  m2.map List.length = m.map List.length ∧
  ∀ x y, mget m2 x y = mget m x y ∨ mget m2 x y = some 1

theorem EvOk.refl (m : Sokoban.Matrix) : EvOk m m := ⟨rfl, fun _ _ => Or.inl rfl⟩

theorem EvOk_trans {m1 m2 m3 : Sokoban.Matrix} (h1 : EvOk m1 m2) (h2 : EvOk m2 m3) :
    EvOk m1 m3 := by
  refine ⟨h2.1.trans h1.1, fun x y => ?_⟩
  rcases h2.2 x y with h | h
  · rw [h]; exact h1.2 x y
  · exact Or.inr h

open Sokoban in
theorem EvOk.mset_one (m : Matrix) (x y : Nat) : EvOk m (mset m x y 1) := by
  refine ⟨mset_shape m x y 1, fun xp yp => ?_⟩
  by_cases hp : xp = x ∧ yp = y
  · obtain ⟨rfl, rfl⟩ := hp
    cases hv : mget m xp yp with
    | none =>
      rw [mset_of_mget_none m xp yp 1 hv]
      exact Or.inl hv
    | some v => exact Or.inr (mget_mset_self m xp yp 1 v hv)
  · exact Or.inl (mget_mset_ne m x y 1 xp yp hp)

open Sokoban in
theorem EvOk_mono {m m2 : Matrix} (h : EvOk m m2) (x y : Nat)
    (h1 : mget m x y = some 1) : mget m2 x y = some 1 := by
  rcases h.2 x y with h2 | h2
  · rw [h2, h1]
  · exact h2

/-! ### Flood-fill theory: the shape/evolution invariant of the fill -/

open Sokoban in
theorem pr_ev (S : Sokoban) :
    ∀ fuel : Nat,
      (∀ p m m2, build_player_reachable S fuel p m = some m2 → EvOk m m2) ∧
      (∀ ps m m2, build_pr_fold (build_player_reachable S fuel) ps m = some m2 →
        EvOk m m2) := by
  intro fuel
  induction fuel with
  | zero =>
    constructor
    · intro p m m2 h
      exact Option.noConfusion h
    · intro ps
      induction ps with
      | nil =>
        intro m m2 h
        cases Option.some.inj h
        exact EvOk.refl m
      | cons p ps ih =>
        intro m m2 h
        exact Option.noConfusion h
  | succ fuel ih =>
    have hA : ∀ p m m2, build_player_reachable S (fuel + 1) p m = some m2 → EvOk m m2 := by
      intro p m m2 h
      unfold build_player_reachable at h
      cases hv : mget m p.x p.y with
      | none => rw [hv] at h; cases h
      | some v =>
        rw [hv] at h
        replace h : (if v = 1 then some m
            else if (S.get_ntype p).can_move = true then
              build_pr_fold (S.build_player_reachable fuel) (loop_positions p)
                (mset m p.x p.y 1)
            else some m) = some m2 := h
        by_cases h1 : v = 1
        · rw [if_pos h1] at h
          cases Option.some.inj h
          exact EvOk.refl m
        · rw [if_neg h1] at h
          by_cases hcm : (S.get_ntype p).can_move = true
          · rw [if_pos hcm] at h
            exact EvOk_trans (EvOk.mset_one m p.x p.y) (ih.2 _ _ _ h)
          · rw [if_neg hcm] at h
            cases Option.some.inj h
            exact EvOk.refl m
    refine ⟨hA, ?_⟩
    intro ps
    induction ps with
    | nil =>
      intro m m2 h
      cases Option.some.inj h
      exact EvOk.refl m
    | cons p ps ihps =>
      intro m m2 h
      unfold build_pr_fold at h
      cases hstep : build_player_reachable S (fuel + 1) p m with
      | none => rw [hstep] at h; cases h
      | some m1 =>
        rw [hstep] at h
        exact EvOk_trans (hA p m m1 hstep) (ihps m1 m2 h)

/-! ### Flood-fill theory: reachability along movable cells -/

/-- Reachability through `loop_positions` adjacency over cells whose
    composite kind is movable — the graph the source's flood fill explores. -/
inductive Reach (S : Sokoban) : Position → Position → Prop where
  | refl (p : Position) : (S.get_ntype p).can_move = true → Reach S p p
  | step (p q r : Position) : Reach S p q → r ∈ loop_positions q →
      (S.get_ntype r).can_move = true → Reach S p r

theorem Reach.cm_right {S : Sokoban} {p q : Position} (h : Reach S p q) :
    (S.get_ntype q).can_move = true := by
  cases h with
  | refl h => exact h
  | step a b c d e => exact e

theorem Reach.cm_left {S : Sokoban} {p q : Position} (h : Reach S p q) :
    (S.get_ntype p).can_move = true := by
  induction h with
  | refl h => exact h
  | step a b c d e ih => exact ih

theorem Reach.trans {S : Sokoban} {p q r : Position}
    (h1 : Reach S p q) (h2 : Reach S q r) : Reach S p r := by
  induction h2 with
  | refl _ => exact h1
  | step a b c d e ih => exact Reach.step _ _ _ ih d e

theorem mem_loop_positions (p r : Position) :
    r ∈ loop_positions p ↔
      (0 < p.x ∧ r = ⟨p.x - 1, p.y⟩) ∨ r = ⟨p.x + 1, p.y⟩ ∨
      (0 < p.y ∧ r = ⟨p.x, p.y - 1⟩) ∨ r = ⟨p.x, p.y + 1⟩ := by
  unfold loop_positions
  by_cases hx : 0 < p.x <;> by_cases hy : 0 < p.y <;>
    simp [hx, hy]

theorem loop_symm (p r : Position) (h : r ∈ loop_positions p) :
    p ∈ loop_positions r := by
  obtain ⟨px, py⟩ := p
  rw [mem_loop_positions] at h ⊢
  rcases h with ⟨hx, rfl⟩ | rfl | ⟨hy, rfl⟩ | rfl
  · right; left
    show (⟨px, py⟩ : Position) = ⟨px - 1 + 1, py⟩
    rw [Nat.sub_add_cancel hx]
  · left
    refine ⟨by show 0 < px + 1; omega, ?_⟩
    show (⟨px, py⟩ : Position) = ⟨px + 1 - 1, py⟩
    rw [Nat.add_sub_cancel]
  · right; right; right
    show (⟨px, py⟩ : Position) = ⟨px, py - 1 + 1⟩
    rw [Nat.sub_add_cancel hy]
  · right; right; left
    refine ⟨by show 0 < py + 1; omega, ?_⟩
    show (⟨px, py⟩ : Position) = ⟨px, py + 1 - 1⟩
    rw [Nat.add_sub_cancel]

theorem Reach.symm {S : Sokoban} {p q : Position} (h : Reach S p q) :
    Reach S q p := by
  induction h with
  | refl h => exact Reach.refl _ h
  | step a b c d e ih =>
    exact Reach.trans
      (Reach.step _ _ a (Reach.refl _ e) (loop_symm a _ d) c.cm_right) ih

/-! ### Flood-fill theory: soundness -/

open Sokoban in
theorem pr_sound (S : Sokoban) :
    ∀ fuel : Nat,
      (∀ p m m2, build_player_reachable S fuel p m = some m2 →
        ∀ x y, ¬ mget m2 x y = mget m x y →
          mget m2 x y = some 1 ∧ Reach S p ⟨x, y⟩) ∧
      (∀ ps m m2, build_pr_fold (build_player_reachable S fuel) ps m = some m2 →
        ∀ x y, ¬ mget m2 x y = mget m x y →
          mget m2 x y = some 1 ∧ ∃ r ∈ ps, Reach S r ⟨x, y⟩) := by
  intro fuel
  induction fuel with
  | zero =>
    constructor
    · intro p m m2 h
      exact Option.noConfusion h
    · intro ps
      induction ps with
      | nil =>
        intro m m2 h x y hne
        cases Option.some.inj h
        exact absurd rfl hne
      | cons p ps ih =>
        intro m m2 h
        exact Option.noConfusion h
  | succ fuel ih =>
    have hA : ∀ p m m2, build_player_reachable S (fuel + 1) p m = some m2 →
        ∀ x y, ¬ mget m2 x y = mget m x y →
          mget m2 x y = some 1 ∧ Reach S p ⟨x, y⟩ := by
      intro p m m2 h x y hne
      unfold build_player_reachable at h
      cases hv : mget m p.x p.y with
      | none => rw [hv] at h; cases h
      | some v =>
        rw [hv] at h
        replace h : (if v = 1 then some m
            else if (S.get_ntype p).can_move = true then
              build_pr_fold (S.build_player_reachable fuel) (loop_positions p)
                (mset m p.x p.y 1)
            else some m) = some m2 := h
        by_cases h1 : v = 1
        · rw [if_pos h1] at h
          cases Option.some.inj h
          exact absurd rfl hne
        · rw [if_neg h1] at h
          by_cases hcm : (S.get_ntype p).can_move = true
          · rw [if_pos hcm] at h
            by_cases hpxy : x = p.x ∧ y = p.y
            · obtain ⟨rfl, rfl⟩ := hpxy
              refine ⟨EvOk_mono ((pr_ev S fuel).2 _ _ _ h) p.x p.y
                (mget_mset_self m p.x p.y 1 v hv), Reach.refl p hcm⟩
            · have hset : mget (mset m p.x p.y 1) x y = mget m x y :=
                mget_mset_ne m p.x p.y 1 x y hpxy
              have hne2 : ¬ mget m2 x y = mget (mset m p.x p.y 1) x y := by
                rw [hset]; exact hne
              obtain ⟨hm2, r, hr, hreach⟩ := ih.2 _ _ _ h x y hne2
              exact ⟨hm2, Reach.trans
                (Reach.step p p r (Reach.refl p hcm) hr hreach.cm_left) hreach⟩
          · rw [if_neg hcm] at h
            cases Option.some.inj h
            exact absurd rfl hne
    refine ⟨hA, ?_⟩
    intro ps
    induction ps with
    | nil =>
      intro m m2 h x y hne
      cases Option.some.inj h
      exact absurd rfl hne
    | cons p ps ihps =>
      intro m m2 h x y hne
      unfold build_pr_fold at h
      cases hstep : build_player_reachable S (fuel + 1) p m with
      | none => rw [hstep] at h; cases h
      | some m1 =>
        rw [hstep] at h
        replace h : build_pr_fold (build_player_reachable S (fuel + 1)) ps m1 =
            some m2 := h
        by_cases hmid : mget m1 x y = mget m x y
        · have hne2 : ¬ mget m2 x y = mget m1 x y := by rw [hmid]; exact hne
          obtain ⟨hm2, r, hr, hreach⟩ := ihps _ _ h x y hne2
          exact ⟨hm2, r, List.mem_cons_of_mem _ hr, hreach⟩
        · obtain ⟨hm1, hreach⟩ := hA p m m1 hstep x y hmid
          exact ⟨EvOk_mono ((pr_ev S (fuel + 1)).2 _ _ _ h) x y hm1,
            p, List.mem_cons_self _ _, hreach⟩

/-! ### Flood-fill theory: closure and completeness -/

open Sokoban in
/-- Every movable neighbour of `(x, y)` is marked in `m2`. -/
def ClosedAt (S : Sokoban) (m2 : Matrix) (x y : Nat) : Prop :=
  ∀ r ∈ loop_positions ⟨x, y⟩,
    (S.get_ntype r).can_move = true → mget m2 r.x r.y = some 1

open Sokoban in
theorem ClosedAt.mono {S : Sokoban} {m1 m2 : Matrix} {x y : Nat}
    (hev : EvOk m1 m2) (h : ClosedAt S m1 x y) : ClosedAt S m2 x y :=
  fun r hr hcm => EvOk_mono hev r.x r.y (h r hr hcm)

open Sokoban in
theorem pr_closed (S : Sokoban) :
    ∀ fuel : Nat,
      (∀ p m m2, build_player_reachable S fuel p m = some m2 →
        ((S.get_ntype p).can_move = true → mget m2 p.x p.y = some 1) ∧
        (∀ x y, mget m2 x y = some 1 → mget m x y = some 1 ∨ ClosedAt S m2 x y)) ∧
      (∀ ps m m2, build_pr_fold (build_player_reachable S fuel) ps m = some m2 →
        (∀ r ∈ ps, (S.get_ntype r).can_move = true → mget m2 r.x r.y = some 1) ∧
        (∀ x y, mget m2 x y = some 1 → mget m x y = some 1 ∨ ClosedAt S m2 x y)) := by
  intro fuel
  induction fuel with
  | zero =>
    constructor
    · intro p m m2 h
      exact Option.noConfusion h
    · intro ps
      induction ps with
      | nil =>
        intro m m2 h
        cases Option.some.inj h
        exact ⟨fun r hr => absurd hr (List.not_mem_nil r), fun x y hm => Or.inl hm⟩
      | cons p ps ih =>
        intro m m2 h
        exact Option.noConfusion h
  | succ fuel ih =>
    have hA : ∀ p m m2, build_player_reachable S (fuel + 1) p m = some m2 →
        ((S.get_ntype p).can_move = true → mget m2 p.x p.y = some 1) ∧
        (∀ x y, mget m2 x y = some 1 → mget m x y = some 1 ∨ ClosedAt S m2 x y) := by
      intro p m m2 h
      unfold build_player_reachable at h
      cases hv : mget m p.x p.y with
      | none => rw [hv] at h; cases h
      | some v =>
        rw [hv] at h
        replace h : (if v = 1 then some m
            else if (S.get_ntype p).can_move = true then
              build_pr_fold (S.build_player_reachable fuel) (loop_positions p)
                (mset m p.x p.y 1)
            else some m) = some m2 := h
        by_cases h1 : v = 1
        · rw [if_pos h1] at h
          cases Option.some.inj h
          exact ⟨fun _ => h1 ▸ hv, fun x y hm => Or.inl hm⟩
        · rw [if_neg h1] at h
          by_cases hcm : (S.get_ntype p).can_move = true
          · rw [if_pos hcm] at h
            obtain ⟨hhandle, hclose⟩ := ih.2 _ _ _ h
            have hmarkp : mget m2 p.x p.y = some 1 :=
              EvOk_mono ((pr_ev S fuel).2 _ _ _ h) p.x p.y
                (mget_mset_self m p.x p.y 1 v hv)
            refine ⟨fun _ => hmarkp, ?_⟩
            intro x y hm
            by_cases hpxy : x = p.x ∧ y = p.y
            · obtain ⟨rfl, rfl⟩ := hpxy
              exact Or.inr (fun r hr hcmr => hhandle r hr hcmr)
            · rcases hclose x y hm with hm1 | hcl
              · rw [mget_mset_ne m p.x p.y 1 x y hpxy] at hm1
                exact Or.inl hm1
              · exact Or.inr hcl
          · rw [if_neg hcm] at h
            cases Option.some.inj h
            exact ⟨fun hc => absurd hc hcm, fun x y hm => Or.inl hm⟩
    refine ⟨hA, ?_⟩
    intro ps
    induction ps with
    | nil =>
      intro m m2 h
      cases Option.some.inj h
      exact ⟨fun r hr => absurd hr (List.not_mem_nil r), fun x y hm => Or.inl hm⟩
    | cons p ps ihps =>
      intro m m2 h
      unfold build_pr_fold at h
      cases hstep : build_player_reachable S (fuel + 1) p m with
      | none => rw [hstep] at h; cases h
      | some m1 =>
        rw [hstep] at h
        replace h : build_pr_fold (build_player_reachable S (fuel + 1)) ps m1 =
            some m2 := h
        obtain ⟨hhandle1, hclose1⟩ := hA p m m1 hstep
        obtain ⟨hhandle2, hclose2⟩ := ihps _ _ h
        have hev2 : EvOk m1 m2 := (pr_ev S (fuel + 1)).2 _ _ _ h
        constructor
        · intro r hr hcmr
          rcases List.mem_cons.1 hr with rfl | hr2
          · exact EvOk_mono hev2 r.x r.y (hhandle1 hcmr)
          · exact hhandle2 r hr2 hcmr
        · intro x y hm
          rcases hclose2 x y hm with hm1 | hcl
          · rcases hclose1 x y hm1 with hm0 | hcl1
            · exact Or.inl hm0
            · exact Or.inr (hcl1.mono hev2)
          · exact Or.inr hcl

open Sokoban in
theorem pr_complete (S : Sokoban) (fuel : Nat) (p : Position) (m0 m2 : Matrix)
    (h : build_player_reachable S fuel p m0 = some m2)
    (hfree : ∀ x y v, mget m0 x y = some v → v ≠ 1) :
    ∀ q : Position, Reach S p q → mget m2 q.x q.y = some 1 := by
  intro q hq
  induction hq with
  | refl hcm => exact ((pr_closed S fuel).1 _ _ _ h).1 hcm
  | step a b c d e ih =>
    rcases ((pr_closed S fuel).1 _ _ _ h).2 a.x a.y ih with hm0 | hcl
    · exact absurd rfl (hfree a.x a.y 1 hm0)
    · exact hcl b d e

open Sokoban in
theorem pr_marks_iff (S : Sokoban) (fuel : Nat) (p : Position) (m0 m2 : Matrix)
    (h : build_player_reachable S fuel p m0 = some m2)
    (hfree : ∀ x y v, mget m0 x y = some v → v ≠ 1)
    (x y : Nat) :
    mget m2 x y = some 1 ↔ Reach S p ⟨x, y⟩ := by
  constructor
  · intro hm
    by_cases heq : mget m2 x y = mget m0 x y
    · rw [hm] at heq
      exact absurd rfl (hfree x y 1 heq.symm)
    · exact ((pr_sound S fuel).1 _ _ _ h x y heq).2
  · exact fun hr => pr_complete S fuel p m0 m2 h hfree ⟨x, y⟩ hr

open Sokoban in
theorem matrix_ext (m1 m2 : Matrix)
    (hshape : m1.map List.length = m2.map List.length)
    (h : ∀ x y, mget m1 x y = mget m2 x y) : m1 = m2 := by
  have hlen : (m1 : List (List Nat)).length = m2.length := by
    simpa using congrArg List.length hshape
  apply List.ext
  intro x
  cases hx1 : List.get? (α := List Nat) m1 x with
  | none =>
    rw [List.get?_eq_none] at hx1
    exact (List.get?_eq_none.2 (hlen ▸ hx1)).symm
  | some c1 =>
    have hxlt : x < m1.length := by
      rcases Nat.lt_or_ge x m1.length with h2 | h2
      · exact h2
      · rw [List.get?_eq_none.2 h2] at hx1; cases hx1
    cases hx2 : List.get? (α := List Nat) m2 x with
    | none =>
      rw [List.get?_eq_none] at hx2
      omega
    | some c2 =>
      refine congrArg some (List.ext ?_)
      intro y
      have hxy := h x y
      unfold Sokoban.mget at hxy
      rw [hx1, hx2] at hxy
      exact hxy

open Sokoban in
theorem flood_same_component (S : Sokoban) (fuel : Nat) (p1 p2 : Position)
    (m0 m1 m2 : Matrix)
    (h1 : build_player_reachable S fuel p1 m0 = some m1)
    (h2 : build_player_reachable S fuel p2 m0 = some m2)
    (hfree : ∀ x y v, mget m0 x y = some v → v ≠ 1)
    (hreach : Reach S p1 p2) : m1 = m2 := by
  apply matrix_ext
  · exact ((pr_ev S fuel).1 _ _ _ h1).1.trans ((pr_ev S fuel).1 _ _ _ h2).1.symm
  · intro x y
    by_cases hR : Reach S p1 ⟨x, y⟩
    · rw [(pr_marks_iff S fuel p1 m0 m1 h1 hfree x y).2 hR,
        (pr_marks_iff S fuel p2 m0 m2 h2 hfree x y).2 (hreach.symm.trans hR)]
    · have hn1 : ¬ mget m1 x y = some 1 :=
        fun hm => hR ((pr_marks_iff S fuel p1 m0 m1 h1 hfree x y).1 hm)
      have hn2 : ¬ mget m2 x y = some 1 :=
        fun hm => hR (hreach.trans ((pr_marks_iff S fuel p2 m0 m2 h2 hfree x y).1 hm))
      rcases ((pr_ev S fuel).1 _ _ _ h1).2 x y with he1 | he1
      · rcases ((pr_ev S fuel).1 _ _ _ h2).2 x y with he2 | he2
        · rw [he1, he2]
        · exact absurd he2 hn2
      · exact absurd he1 hn1

/-! ### Characterization of the seed matrix -/

theorem get?_replicate {α : Type} (a : α) :
    ∀ (n i : Nat), (List.replicate n a).get? i = if i < n then some a else none := by
  intro n
  induction n with
  | zero => intro i; simp
  | succ n ih =>
    intro i
    cases i with
    | zero => simp [List.replicate]
    | succ i =>
      rw [List.replicate, List.get?]
      rw [ih i]
      by_cases hi : i < n
      · rw [if_pos hi, if_pos (by omega)]
      · rw [if_neg hi, if_neg (by omega)]

open Sokoban in
theorem mget_base (w h x y : Nat) :
    mget (List.replicate w (List.replicate h 0)) x y =
      if x < w ∧ y < h then some 0 else none := by
  unfold Sokoban.mget
  rw [get?_replicate]
  by_cases hx : x < w
  · rw [if_pos hx]
    show (List.replicate h 0).get? y = _
    rw [get?_replicate]
    by_cases hy : y < h
    · rw [if_pos hy, if_pos ⟨hx, hy⟩]
    · rw [if_neg hy, if_neg (fun hc => hy hc.2)]
  · rw [if_neg hx]
    show (none : Option Nat) = _
    rw [if_neg (fun hc => hx hc.1)]

theorem ne_coords (c q : Position) (h : c ≠ q) : ¬(q.x = c.x ∧ q.y = c.y) := by
  rintro ⟨h1, h2⟩
  exact h (by
    obtain ⟨cx, cy⟩ := c
    obtain ⟨qx, qy⟩ := q
    simp only [Position.mk.injEq]
    exact ⟨h1.symm, h2.symm⟩)

open Sokoban in
theorem init_fold_ne (S : Sokoban) :
    ∀ (cells : List Position) (m : Matrix) (q : Position),
      (∀ c ∈ cells, c ≠ q) →
      mget (cells.foldl (fun m p =>
          let t := S.get_ntype p
          if t.is_box then mset m p.x p.y t.toNat else m) m) q.x q.y =
        mget m q.x q.y := by
  intro cells
  induction cells with
  | nil => intro m q _; rfl
  | cons c cells ih =>
    intro m q hne
    rw [List.foldl_cons, ih _ q (fun c2 hc2 => hne c2 (by simp [hc2]))]
    by_cases hb : (S.get_ntype c).is_box = true
    · simp only [hb, if_pos]
      exact mget_mset_ne m c.x c.y _ q.x q.y (ne_coords c q (hne c (by simp)))
    · simp [hb]

open Sokoban in
theorem init_fold_mem (S : Sokoban) :
    ∀ (cells : List Position) (m : Matrix) (q : Position),
      cells.Nodup → q ∈ cells → (mget m q.x q.y).isSome = true →
      mget (cells.foldl (fun m p =>
          let t := S.get_ntype p
          if t.is_box then mset m p.x p.y t.toNat else m) m) q.x q.y =
        (if (S.get_ntype q).is_box then some (S.get_ntype q).toNat
         else mget m q.x q.y) := by
  intro cells
  induction cells with
  | nil => intro m q _ hq _; simp at hq
  | cons c cells ih =>
    intro m q hnd hq hsome
    rw [List.nodup_cons] at hnd
    rcases List.mem_cons.1 hq with rfl | htail
    · rw [List.foldl_cons,
        init_fold_ne S cells _ q (fun c2 hc2 heq => hnd.1 (heq ▸ hc2))]
      by_cases hb : (S.get_ntype q).is_box = true
      · simp only [hb, if_pos]
        obtain ⟨v, hv⟩ := Option.isSome_iff_exists.1 hsome
        exact mget_mset_self m q.x q.y _ v hv
      · simp [hb]
    · rw [List.foldl_cons]
      have hqc : ¬(q.x = c.x ∧ q.y = c.y) := by
        refine ne_coords c q (fun he => hnd.1 ?_)
        rw [he]; exact htail
      have hstep : ∀ m2 : Matrix,
          mget ((let t := S.get_ntype c;
            if t.is_box then mset m c.x c.y t.toNat else m)) q.x q.y =
          mget m q.x q.y := by
        intro m2
        by_cases hb : (S.get_ntype c).is_box = true
        · simp only [hb, if_pos]
          exact mget_mset_ne m c.x c.y _ q.x q.y hqc
        · simp [hb]
      rw [ih _ q hnd.2 htail (by rw [hstep m]; exact hsome), hstep m]

open Sokoban in
theorem row_major_mem (h w : Nat) (q : Position) :
    q ∈ row_major h w ↔ q.x < w ∧ q.y < h := by
  unfold Sokoban.row_major
  simp only [List.mem_flatMap, List.mem_map, List.mem_range]
  constructor
  · rintro ⟨y, hy, x, hx, rfl⟩
    exact ⟨hx, hy⟩
  · rintro ⟨hx, hy⟩
    exact ⟨q.y, hy, q.x, hx, rfl⟩

open Sokoban in
theorem row_major_nodup (w : Nat) : ∀ h : Nat, (row_major h w).Nodup := by
  intro h
  induction h with
  | zero => exact List.nodup_nil
  | succ h ih =>
    unfold Sokoban.row_major
    rw [List.range_succ, List.flatMap_append]
    refine List.Nodup.append ih ?_ ?_
    · simp only [List.flatMap_singleton]
      exact List.Nodup.map (fun a b hab => by
        simpa using congrArg Position.x hab) (List.nodup_range w)
    · intro q hq1 hq2
      have h1 : q.y < h := ((row_major_mem h w q).1 hq1).2
      have h2 : q.y = h := by
        simp only [List.flatMap_singleton, List.mem_map, List.mem_range] at hq2
        obtain ⟨x, -, rfl⟩ := hq2
        rfl
      omega

open Sokoban in
theorem init_mget (S : Sokoban) (q : Position) (hx : q.x < S.width)
    (hy : q.y < S.height) :
    mget (init_player_reachable S) q.x q.y =
      some (if (S.get_ntype q).is_box then (S.get_ntype q).toNat else 0) := by
  have hin : q.x < S.width ∧ q.y < S.height := ⟨hx, hy⟩
  unfold Sokoban.init_player_reachable
  rw [init_fold_mem S (row_major S.height S.width) _ q
    (row_major_nodup S.width S.height) ((row_major_mem _ _ q).2 hin)
    (by rw [mget_base]; simp [hx, hy])]
  rw [mget_base, if_pos hin]
  by_cases hb : (S.get_ntype q).is_box = true
  · simp [hb]
  · simp [hb]

open Sokoban in
theorem init_mget_oob (S : Sokoban) (x y : Nat)
    (h : ¬(x < S.width ∧ y < S.height)) :
    mget (init_player_reachable S) x y = none := by
  unfold Sokoban.init_player_reachable
  have := init_fold_ne S (row_major S.height S.width)
    (List.replicate S.width (List.replicate S.height 0)) ⟨x, y⟩
    (fun c hc heq => h (by
      obtain ⟨h1, h2⟩ := (row_major_mem _ _ c).1 hc
      rw [heq] at h1 h2
      exact ⟨h1, h2⟩))
  rw [this, mget_base, if_neg h]

theorem is_box_toNat (t : NodeType) (h : t.is_box = true) :
    t.toNat = 3 ∨ t.toNat = 5 := by
  cases t <;> simp_all [NodeType.is_box, NodeType.toNat]

theorem cm_not_box (t : NodeType) (h : t.can_move = true) : t.is_box = false := by
  cases t <;> simp_all [NodeType.is_box, NodeType.can_move]

open Sokoban in
theorem init_one_free (S : Sokoban) :
    ∀ x y v, mget (init_player_reachable S) x y = some v → v ≠ 1 := by
  intro x y v h
  by_cases hin : x < S.width ∧ y < S.height
  · rw [init_mget S ⟨x, y⟩ hin.1 hin.2] at h
    cases Option.some.inj h
    by_cases hb : (S.get_ntype ⟨x, y⟩).is_box = true
    · rw [if_pos hb]
      rcases is_box_toNat _ hb with h3 | h5 <;> omega
    · rw [if_neg hb]
      omega
  · rw [init_mget_oob S x y hin] at h
    cases h

/-! ### Player-position invariance of the canonical hash -/

/-- The composite kind of a cell ignoring the player layer (static kind
    plus box occupancy; Wall off the stored map). -/
def base_kind (S : Sokoban) (c : Position) : NodeType :=
  match alist_get S.map c with
  | none => NodeType.Wall
  | some t0 =>
    if S.boxes.contains c then
      (if t0 = NodeType.Whole then NodeType.BoxOnWhole else NodeType.Box)
    else t0

theorem get_ntype_eq2 (S : Sokoban) (c : Position) :
    S.get_ntype c =
      match alist_get S.map c with
      | none => NodeType.Wall
      | some _ =>
        match S.player with
        | none => base_kind S c
        | some p =>
          if c = p then
            (if base_kind S c = NodeType.Whole then NodeType.PlayerOnWhole
             else NodeType.Player)
          else base_kind S c := by
  unfold Sokoban.get_ntype base_kind
  cases hl : alist_get S.map c with
  | none => rfl
  | some t0 =>
    cases hp : S.player with
    | none => rfl
    | some p => rfl

theorem base_kind_player_irrel (S : Sokoban) (pl : Option Position) (c : Position) :
    base_kind { S with player := pl } c = base_kind S c := rfl

theorem get_ntype_none_player (S : Sokoban) (c : Position) :
    Sokoban.get_ntype { S with player := none } c = base_kind S c := by
  rw [get_ntype_eq2]
  cases hl : alist_get S.map c with
  | none =>
    show NodeType.Wall = base_kind S c
    unfold base_kind
    rw [hl]
  | some t0 => exact base_kind_player_irrel S none c

theorem get_ntype_off_player (S : Sokoban) (p c : Position)
    (hp : S.player = some p) (hc : c ≠ p) : S.get_ntype c = base_kind S c := by
  rw [get_ntype_eq2]
  cases hl : alist_get S.map c with
  | none =>
    show NodeType.Wall = base_kind S c
    unfold base_kind
    rw [hl]
  | some t0 =>
    rw [hp]
    exact if_neg hc

theorem player_cell_cm (S : Sokoban) (p : Position) (hp : S.player = some p)
    (hbase : (base_kind S p).can_move = true) :
    (S.get_ntype p).can_move = true := by
  rw [get_ntype_eq2]
  cases hl : alist_get S.map p with
  | none =>
    unfold base_kind at hbase
    rw [hl] at hbase
    exact hbase
  | some t0 =>
    rw [hp]
    show (if p = p then
        (if base_kind S p = NodeType.Whole then NodeType.PlayerOnWhole
         else NodeType.Player)
      else base_kind S p).can_move = true
    rw [if_pos rfl]
    by_cases hW : base_kind S p = NodeType.Whole <;> simp [hW, NodeType.can_move]

theorem cm_agree (S : Sokoban) (p1 p2 : Position)
    (hp1 : S.player = some p1)
    (h1 : (base_kind S p1).can_move = true)
    (h2 : (base_kind S p2).can_move = true) :
    ∀ c, (S.get_ntype c).can_move =
      (Sokoban.get_ntype { S with player := some p2 } c).can_move := by
  intro c
  by_cases hc1 : c = p1
  · subst hc1
    rw [player_cell_cm S c hp1 h1]
    by_cases hc2 : c = p2
    · subst hc2
      exact (player_cell_cm { S with player := some c } c rfl h1).symm
    · rw [get_ntype_off_player { S with player := some p2 } p2 c rfl hc2]
      exact h1.symm
  · by_cases hc2 : c = p2
    · subst hc2
      rw [get_ntype_off_player S p1 c hp1 hc1,
        player_cell_cm { S with player := some c } c rfl h2]
      exact h2
    · rw [get_ntype_off_player S p1 c hp1 hc1,
        get_ntype_off_player { S with player := some p2 } p2 c rfl hc2]
      rfl

theorem box_not_cm (t : NodeType) (h : t.is_box = true) : t.can_move = false := by
  cases t <;> simp_all [NodeType.is_box, NodeType.can_move]

theorem foldl_ext_my {α β : Type} (f g : β → α → β) (l : List α)
    (h : ∀ b, ∀ a ∈ l, f b a = g b a) : ∀ b, l.foldl f b = l.foldl g b := by
  induction l with
  | nil => intro b; rfl
  | cons a l ih =>
    intro b
    rw [List.foldl_cons, List.foldl_cons, h b a (by simp)]
    exact ih (fun b2 a2 ha2 => h b2 a2 (by simp [ha2])) _

open Sokoban in
theorem init_agree (S : Sokoban) (p1 p2 : Position)
    (hp1 : S.player = some p1)
    (h1 : (base_kind S p1).can_move = true)
    (h2 : (base_kind S p2).can_move = true) :
    init_player_reachable S = init_player_reachable { S with player := some p2 } := by
  unfold Sokoban.init_player_reachable
  show (row_major S.height S.width).foldl _ _ = (row_major S.height S.width).foldl _ _
  apply foldl_ext_my
  intro m c _
  show (if (S.get_ntype c).is_box = true then
      mset m c.x c.y (S.get_ntype c).toNat else m) =
    (if (Sokoban.get_ntype { S with player := some p2 } c).is_box = true then
      mset m c.x c.y (Sokoban.get_ntype { S with player := some p2 } c).toNat else m)
  by_cases hc1 : c = p1
  · subst hc1
    rw [if_neg (by rw [cm_not_box _ (player_cell_cm S c hp1 h1)]; exact Bool.false_ne_true)]
    by_cases hc2 : c = p2
    · subst hc2
      rw [if_neg (by
        rw [cm_not_box _ (player_cell_cm { S with player := some c } c rfl h1)]
        exact Bool.false_ne_true)]
    · rw [if_neg (by
        rw [get_ntype_off_player { S with player := some p2 } p2 c rfl hc2]
        show ¬ (base_kind S c).is_box = true
        rw [cm_not_box _ h1]
        exact Bool.false_ne_true)]
  · by_cases hc2 : c = p2
    · subst hc2
      rw [if_neg (by
        rw [get_ntype_off_player S p1 c hp1 hc1, cm_not_box _ h2]
        exact Bool.false_ne_true)]
      rw [if_neg (by
        rw [cm_not_box _ (player_cell_cm { S with player := some c } c rfl h2)]
        exact Bool.false_ne_true)]
    · rw [get_ntype_off_player S p1 c hp1 hc1,
        show Sokoban.get_ntype { S with player := some p2 } c = base_kind S c from
          (get_ntype_off_player { S with player := some p2 } p2 c rfl hc2).trans
            (base_kind_player_irrel S (some p2) c)]

open Sokoban in
theorem pr_congr (S1 S2 : Sokoban)
    (hcm : ∀ c, (S1.get_ntype c).can_move = (S2.get_ntype c).can_move) :
    ∀ (fuel : Nat) (p : Position) (m : Matrix),
      build_player_reachable S1 fuel p m = build_player_reachable S2 fuel p m := by
  intro fuel
  induction fuel with
  | zero => intro p m; rfl
  | succ fuel ih =>
    have hfold : ∀ (ps : List Position) (m : Matrix),
        build_pr_fold (build_player_reachable S1 fuel) ps m =
          build_pr_fold (build_player_reachable S2 fuel) ps m := by
      intro ps
      induction ps with
      | nil => intro m; rfl
      | cons p ps ihps =>
        intro m
        unfold build_pr_fold
        rw [ih p m]
        cases build_player_reachable S2 fuel p m with
        | none => rfl
        | some m2 => exact ihps m2
    intro p m
    unfold build_player_reachable
    cases hv : mget m p.x p.y with
    | none => rfl
    | some v =>
      show (if v = 1 then some m
          else if (S1.get_ntype p).can_move = true then
            build_pr_fold (build_player_reachable S1 fuel) (loop_positions p)
              (mset m p.x p.y 1)
          else some m) =
        (if v = 1 then some m
          else if (S2.get_ntype p).can_move = true then
            build_pr_fold (build_player_reachable S2 fuel) (loop_positions p)
              (mset m p.x p.y 1)
          else some m)
      rw [hcm p, hfold]

/-! ### C3 -/

/-- Level `0305 11111 10101 11111`: playerless corridor split by an interior
    wall at (2,1). -/
def levelT : List Nat := [0,3,0,5, 1,1,1,1,1, 1,0,1,0,1, 1,1,1,1,1]

/-- The corridor of `levelT` with the player placed on the interior wall. -/
def boardT1 : Sokoban := { (Sokoban.new levelT).getD board0 with player := some ⟨2, 1⟩ }

/-- The corridor of `levelT` with the player on the free cell (1,1). -/
def boardT2 : Sokoban := { (Sokoban.new levelT).getD board0 with player := some ⟨1, 1⟩ }

/-- Level `0305 11111 14331 11111`: player at (1,1), boxes at (2,1) and (3,1). -/
def levelU : List Nat := [0,3,0,5, 1,1,1,1,1, 1,4,3,3,1, 1,1,1,1,1]

def boardU1 : Sokoban := (Sokoban.new levelU).getD board0

/-- `boardU1` with its boxes sequence reversed: the boxes differ position by
    position but cover the same set of cells. -/
def boardU2 : Sokoban := { boardU1 with boxes := [⟨3, 1⟩, ⟨2, 1⟩] }

/-- `boardC` with its single box removed: same grid, static map and player,
    but a different set of box-occupied cells. -/
def boardC_noboxes : Sokoban := { boardC with boxes := [] }

/-- C3 counterexample. (a) `boardT1` and `boardT2` are the same corridor and
    differ only in the player cell; under `boardT1`'s own flood fill both
    players' cells lie in the same marked component (cells (1,1) and (2,1) are
    both marked), yet the two hashes differ — `boardT1`'s player stands on an
    interior wall which the player layer of `get_ntype` turns movable, so the
    wall bridges two otherwise separate regions. (b) `boardU1` and `boardU2`
    differ in a box Position (their boxes sequences differ at index 0) but
    carry the same set of box cells, and their hashes coincide. -/
theorem C3_counterexample :
    (boardT1.player = some ⟨2, 1⟩ ∧ boardT2.player = some ⟨1, 1⟩ ∧
      Sokoban.mget (boardT1.get_hash.getD []) 1 1 = some 1 ∧
      Sokoban.mget (boardT1.get_hash.getD []) 2 1 = some 1 ∧
      boardT1.get_hash.isSome = true ∧ boardT2.get_hash.isSome = true ∧
      boardT1.get_hash.getD [] ≠ boardT2.get_hash.getD []) ∧
    (boardU1.boxes ≠ boardU2.boxes ∧
      boardU1.get_hash.isSome = true ∧ boardU2.get_hash.isSome = true ∧
      boardU1.get_hash = boardU2.get_hash) := by
  decide

/-- C3 (amended): provided the player stands on a cell whose playerless
    composite kind is movable, the canonical hash is a function of the box
    cells and the player-reachable region only. Part 1: moving the player to
    any cell marked in the current hash matrix leaves the hash unchanged.
    Part 2: two boards with the same grid, static map and (sane) player that
    differ in the set of box-occupied cells — witnessed by an in-grid,
    map-covered floor cell holding a box in one board and none in the other —
    produce different hash matrices. -/
theorem C3_canonical_hash :
    (∀ (S : Sokoban) (p1 p2 : Position) (m1 m2 : Sokoban.Matrix),
        S.player = some p1 →
        (base_kind S p1).can_move = true →
        S.get_hash = some m1 →
        Sokoban.get_hash { S with player := some p2 } = some m2 →
        Sokoban.mget m1 p2.x p2.y = some 1 →
        m1 = m2) ∧
    (∀ (S1 S2 : Sokoban) (p q : Position) (m1 m2 : Sokoban.Matrix),
        S1.width = S2.width →
        S1.height = S2.height →
        S1.map = S2.map →
        S1.player = some p →
        S2.player = some p →
        (base_kind S1 p).can_move = true →
        (base_kind S2 p).can_move = true →
        q.x < S1.width →
        q.y < S1.height →
        q ∈ S1.boxes →
        ¬ q ∈ S2.boxes →
        (∃ t0, alist_get S1.map q = some t0 ∧ t0.is_box = false) →
        S1.get_hash = some m1 →
        S2.get_hash = some m2 →
        m1 ≠ m2) := by
  constructor
  · intro S p1 p2 m1 m2 hp1 h1 hm1 hm2 hmem
    unfold Sokoban.get_hash at hm1 hm2
    rw [hp1] at hm1
    replace hm1 : Sokoban.build_player_reachable S (S.width * S.height + 1) p1
        (Sokoban.init_player_reachable S) = some m1 := hm1
    replace hm2 : Sokoban.build_player_reachable { S with player := some p2 }
        (S.width * S.height + 1) p2
        (Sokoban.init_player_reachable { S with player := some p2 }) = some m2 := hm2
    have hreach : Reach S p1 p2 :=
      (pr_marks_iff S _ p1 _ m1 hm1 (init_one_free S) p2.x p2.y).1 hmem
    have h2 : (base_kind S p2).can_move = true := by
      by_cases hpp : p2 = p1
      · rw [hpp]; exact h1
      · have hcm := hreach.cm_right
        rw [get_ntype_off_player S p1 p2 hp1 hpp] at hcm
        exact hcm
    have hm2' : Sokoban.build_player_reachable S (S.width * S.height + 1) p2
        (Sokoban.init_player_reachable S) = some m2 := by
      rw [init_agree S p1 p2 hp1 h1 h2,
        pr_congr S { S with player := some p2 } (cm_agree S p1 p2 hp1 h1 h2)]
      exact hm2
    exact flood_same_component S _ p1 p2 _ m1 m2 hm1 hm2' (init_one_free S) hreach
  · intro S1 S2 p q m1 m2 hw hh hmap hp1 hp2 hb1 hb2 hqx hqy hq1 hq2 hmapq hm1 hm2 heq
    obtain ⟨t0, ht0, ht0b⟩ := hmapq
    have hpq : p ≠ q := by
      intro hpq
      subst hpq
      have hbox : base_kind S1 p =
          (if t0 = NodeType.Whole then NodeType.BoxOnWhole else NodeType.Box) := by
        unfold base_kind
        rw [ht0]
        show (if S1.boxes.contains p = true then
            (if t0 = NodeType.Whole then NodeType.BoxOnWhole else NodeType.Box)
          else t0) = _
        rw [if_pos ((contains_iff _ _).2 hq1)]
      rw [hbox] at hb1
      by_cases hW : t0 = NodeType.Whole <;> simp [hW, NodeType.can_move] at hb1
    have hbase1 : base_kind S1 q =
        (if t0 = NodeType.Whole then NodeType.BoxOnWhole else NodeType.Box) := by
      unfold base_kind
      rw [ht0]
      show (if S1.boxes.contains q = true then
          (if t0 = NodeType.Whole then NodeType.BoxOnWhole else NodeType.Box)
        else t0) = _
      rw [if_pos ((contains_iff _ _).2 hq1)]
    have hnt1 : S1.get_ntype q =
        (if t0 = NodeType.Whole then NodeType.BoxOnWhole else NodeType.Box) :=
      (get_ntype_off_player S1 p q hp1 (fun h => hpq h.symm)).trans hbase1
    have hbox1 : (S1.get_ntype q).is_box = true := by
      rw [hnt1]
      by_cases hW : t0 = NodeType.Whole <;> simp [hW, NodeType.is_box]
    have hbase2 : base_kind S2 q = t0 := by
      unfold base_kind
      rw [← hmap, ht0]
      show (if S2.boxes.contains q = true then
          (if t0 = NodeType.Whole then NodeType.BoxOnWhole else NodeType.Box)
        else t0) = t0
      rw [if_neg (fun hc => hq2 ((contains_iff _ _).1 hc))]
    have hnt2 : S2.get_ntype q = t0 :=
      (get_ntype_off_player S2 p q hp2 (fun h => hpq h.symm)).trans hbase2
    have hseed1 : Sokoban.mget (Sokoban.init_player_reachable S1) q.x q.y =
        some ((S1.get_ntype q).toNat) := by
      rw [init_mget S1 q hqx hqy, if_pos hbox1]
    have hseed2 : Sokoban.mget (Sokoban.init_player_reachable S2) q.x q.y = some 0 := by
      rw [init_mget S2 q (hw ▸ hqx) (hh ▸ hqy),
        if_neg (by rw [hnt2, ht0b]; exact Bool.false_ne_true)]
    unfold Sokoban.get_hash at hm1 hm2
    rw [hp1] at hm1
    rw [hp2] at hm2
    replace hm1 : Sokoban.build_player_reachable S1 (S1.width * S1.height + 1) p
        (Sokoban.init_player_reachable S1) = some m1 := hm1
    replace hm2 : Sokoban.build_player_reachable S2 (S2.width * S2.height + 1) p
        (Sokoban.init_player_reachable S2) = some m2 := hm2
    have hm1q : Sokoban.mget m1 q.x q.y = some ((S1.get_ntype q).toNat) := by
      rcases ((pr_ev S1 _).1 _ _ _ hm1).2 q.x q.y with h | h
      · rw [h, hseed1]
      · exfalso
        have hr := (pr_marks_iff S1 _ p _ m1 hm1 (init_one_free S1) q.x q.y).1 h
        exact Bool.false_ne_true ((cm_not_box _ hr.cm_right).symm.trans hbox1)
    have hm2q : Sokoban.mget m2 q.x q.y = some 0 ∨ Sokoban.mget m2 q.x q.y = some 1 := by
      rcases ((pr_ev S2 _).1 _ _ _ hm2).2 q.x q.y with h | h
      · rw [h, hseed2]; exact Or.inl rfl
      · exact Or.inr h
    have hq' : Sokoban.mget m1 q.x q.y = Sokoban.mget m2 q.x q.y := by rw [heq]
    rw [hm1q] at hq'
    rcases is_box_toNat _ hbox1 with h3 | h3 <;> rw [h3] at hq' <;>
      rcases hm2q with h0 | h0 <;> rw [h0] at hq' <;>
        exact absurd (Option.some.inj hq') (by decide)

/-- C3 witness: on `boardA` (sane player at (1,1)), moving the player to the
    marked cell (2,1) leaves the hash matrix unchanged; and `boardC` versus
    `boardC_noboxes` (same corridor, box removed from the goal cell (3,1))
    produce different hash matrices. -/
theorem C3_witness :
    boardA.get_hash.getD [] =
      (Sokoban.get_hash { boardA with player := some ⟨2, 1⟩ }).getD [] ∧
    boardC.get_hash.getD [] ≠ boardC_noboxes.get_hash.getD [] := by
  constructor
  · exact C3_canonical_hash.1 boardA ⟨1, 1⟩ ⟨2, 1⟩ _ _ (by decide) (by decide)
      (by decide) (by decide) (by decide)
  · exact C3_canonical_hash.2 boardC boardC_noboxes ⟨1, 1⟩ ⟨3, 1⟩ _ _
      rfl rfl rfl (by decide) (by decide) (by decide) (by decide) (by decide)
      (by decide) (by decide) (by decide)
      ⟨NodeType.Whole, by decide, by decide⟩ (by decide) (by decide)

/-! ### C5 -/

theorem zip_mem_get? {α β : Type} :
    ∀ (l1 : List α) (l2 : List β) (a : α) (b : β), (a, b) ∈ l1.zip l2 →
      ∃ j, l1.get? j = some a ∧ l2.get? j = some b := by
  intro l1
  induction l1 with
  | nil => intro l2 a b h; simp at h
  | cons x l1 ih =>
    intro l2 a b h
    cases l2 with
    | nil => simp at h
    | cons y l2 =>
      rcases List.mem_cons.1 h with heq | htail
      · cases heq
        exact ⟨0, rfl, rfl⟩
      · obtain ⟨j, h1, h2⟩ := ih l2 a b htail
        exact ⟨j + 1, h1, h2⟩

theorem built_lookup_oob (tbl : Nat → Option NodeType) (a b c d : Nat)
    (rest : List Nat) (ts : List NodeType) (S : Sokoban)
    (hts : rest.map tbl = List.map some ts)
    (hlen : rest.length = (a * 10 + b) * (c * 10 + d))
    (hS : Sokoban.build tbl (a :: b :: c :: d :: rest) = some S)
    (q : Position) (hq : ¬(q.x < c * 10 + d ∧ q.y < a * 10 + b)) :
    alist_get S.map q = none := by
  rw [build_eq tbl a b c d rest ts hts hlen] at hS
  cases Option.some.inj hS
  refine lookup_prepend_not_mem _ [] q ?_
  intro pt hpt hq'
  have hmem := (List.of_mem_zip hpt).1
  rcases (cellsOf_mem (c * 10 + d) rest.length 0 pt.1).1 hmem with ⟨j, hj, hcell⟩
  have hw : 0 < c * 10 + d := by
    rcases Nat.eq_zero_or_pos (c * 10 + d) with h0 | h0
    · rw [h0, Nat.mul_zero] at hlen; omega
    · exact h0
  have hx : pt.1.x < c * 10 + d := by
    rw [hcell]; exact Nat.mod_lt _ hw
  have hy : pt.1.y < a * 10 + b := by
    rw [hcell]
    show (0 + j) / (c * 10 + d) < a * 10 + b
    exact (Nat.div_lt_iff_lt_mul hw).2 (by rw [Nat.zero_add]; exact hlen ▸ hj)
  rw [hq'] at hx hy
  exact hq ⟨hx, hy⟩

theorem built_cell_wall (tbl : Nat → Option NodeType) (a b c d : Nat)
    (rest : List Nat) (ts : List NodeType) (S : Sokoban)
    (hts : rest.map tbl = List.map some ts)
    (hlen : rest.length = (a * 10 + b) * (c * 10 + d))
    (hS : Sokoban.build tbl (a :: b :: c :: d :: rest) = some S)
    (j : Nat) (hj : ts.get? j = some NodeType.Wall) :
    S.get_ntype ⟨j % (c * 10 + d), j / (c * 10 + d)⟩ = NodeType.Wall := by
  rw [build_eq tbl a b c d rest ts hts hlen] at hS
  cases Option.some.inj hS
  set w := c * 10 + d with hwdef
  set n := rest.length with hndef
  have hts_len : ts.length = n := by
    have := congrArg List.length hts
    simpa using this.symm
  obtain ⟨hjlt0, -⟩ := List.get?_eq_some.1 hj
  have hjlt : j < n := hts_len ▸ hjlt0
  set cells := cellsOf w 0 n with hcells
  set zs := cells.zip ts with hzs
  have hcl : cells.length = n := cellsOf_length w n 0
  have hfst : zs.map Prod.fst = cells :=
    List.map_fst_zip cells ts (by rw [hcl, hts_len])
  have hnd : (zs.map Prod.fst).Nodup := by
    rw [hfst]; exact cellsOf_nodup w n 0
  have hq : cells.get? j = some ⟨j % w, j / w⟩ := by
    have := cellsOf_get? w n j 0 hjlt
    simpa using this
  have hmemz : ((⟨j % w, j / w⟩ : Position), NodeType.Wall) ∈ zs :=
    zip_get?_mem cells ts j _ _ hq hj
  have hlook : alist_get
      (zs.foldl (fun mp pt => (pt.1, static_of pt.2) :: mp) []) ⟨j % w, j / w⟩ =
      some (static_of NodeType.Wall) := lookup_prepend_mem zs [] _ _ hnd hmemz
  have hbox : (zs.filterMap
      (fun pt => if pt.2.is_box then some pt.1 else none)).contains
        (⟨j % w, j / w⟩ : Position) = false := by
    refine Bool.eq_false_iff.2 (fun hc => ?_)
    obtain ⟨pt, hpt, hf⟩ := List.mem_filterMap.1 ((contains_iff _ _).1 hc)
    rcases pt with ⟨p1, t2⟩
    by_cases hb2 : t2.is_box = true
    · rw [if_pos hb2] at hf
      cases Option.some.inj hf
      have := fst_nodup_unique zs _ t2 NodeType.Wall hnd hpt hmemz
      rw [this] at hb2
      exact Bool.noConfusion hb2
    · rw [if_neg hb2] at hf
      cases hf
  have hplayer :
      zs.foldl (fun pl pt => if pt.2.is_player then some pt.1 else pl) none = none ∨
      ∃ c2 : Position,
        zs.foldl (fun pl pt => if pt.2.is_player then some pt.1 else pl) none = some c2 ∧
        (⟨j % w, j / w⟩ : Position) ≠ c2 := by
    rcases player_fold_cases zs none with h0 | ⟨pt, hpt, hpp, h0⟩
    · exact Or.inl h0
    · refine Or.inr ⟨pt.1, h0, fun hqc => ?_⟩
      have hmem2 : ((⟨j % w, j / w⟩ : Position), pt.2) ∈ zs := by
        rw [hqc]; exact hpt
      have := fst_nodup_unique zs _ pt.2 NodeType.Wall hnd hmem2 hmemz
      rw [this] at hpp
      exact Bool.noConfusion hpp
  show Sokoban.get_ntype _ _ = NodeType.Wall
  unfold Sokoban.get_ntype
  dsimp only
  rw [hlook]
  simp only [hbox]
  rcases hplayer with hpl | ⟨c2, hpl, hqc⟩
  · rw [hpl]
    simp [static_of, NodeType.is_player, NodeType.is_box]
  · rw [hpl]
    simp [hqc, static_of, NodeType.is_player, NodeType.is_box]

theorem countP_le_my {α : Type} (pr pr2 : α → Bool) :
    ∀ l : List α, (∀ b ∈ l, pr2 b = true → pr b = true) →
      l.countP pr2 ≤ l.countP pr := by
  intro l
  induction l with
  | nil => intro _; exact Nat.le_refl _
  | cons x xs ih =>
    intro h
    have ih2 := ih (fun b hb => h b (by simp [hb]))
    by_cases h2x : pr2 x = true
    · rw [List.countP_cons_of_pos _ _ h2x,
        List.countP_cons_of_pos _ _ (h x (by simp) h2x)]
      omega
    · rw [List.countP_cons_of_neg _ _ h2x, List.countP_cons]
      omega

theorem countP_lt_my {α : Type} (pr pr2 : α → Bool) :
    ∀ l : List α, ∀ a ∈ l, (∀ b ∈ l, pr2 b = true → pr b = true) →
      pr2 a = false → pr a = true → l.countP pr2 < l.countP pr := by
  intro l
  induction l with
  | nil => intro a ha; simp at ha
  | cons x xs ih =>
    intro a ha h h2a h1a
    rcases List.mem_cons.1 ha with heq | htail
    · subst heq
      rw [List.countP_cons_of_neg _ _ (by simp [h2a]),
        List.countP_cons_of_pos _ _ h1a]
      exact Nat.lt_succ_of_le (countP_le_my pr pr2 xs (fun b hb => h b (by simp [hb])))
    · have ih2 := ih a htail (fun b hb => h b (by simp [hb])) h2a h1a
      by_cases h2x : pr2 x = true
      · rw [List.countP_cons_of_pos _ _ h2x,
          List.countP_cons_of_pos _ _ (h x (by simp) h2x)]
        omega
      · rw [List.countP_cons_of_neg _ _ h2x, List.countP_cons]
        omega

open Sokoban in
theorem shape_mget (m : Matrix) (W H x y : Nat)
    (hs : m.map List.length =
      (List.replicate W (List.replicate H (0 : Nat))).map List.length)
    (hx : x < W) (hy : y < H) : ∃ v, mget m x y = some v := by
  have hlen : m.length = W := by
    have := congrArg List.length hs
    simpa using this
  have hxm : x < m.length := by omega
  have hcol : List.get? (α := List Nat) m x = some (m.get ⟨x, hxm⟩) :=
    List.get?_eq_get hxm
  have hcollen : (m.get ⟨x, hxm⟩).length = H := by
    have h1 := congrArg (fun l => List.get? l x) hs
    simp only [List.get?_map, hcol, List.map_replicate, get?_replicate,
      List.length_replicate, Option.map_some'] at h1
    rw [if_pos hx] at h1
    exact Option.some.inj h1
  have hyc : y < (m.get ⟨x, hxm⟩).length := by omega
  refine ⟨(m.get ⟨x, hxm⟩).get ⟨y, hyc⟩, ?_⟩
  unfold Sokoban.mget
  rw [hcol]
  show (m.get ⟨x, hxm⟩).get? y = _
  exact List.get?_eq_get hyc

open Sokoban in
theorem row_major_length (w : Nat) : ∀ h : Nat, (row_major h w).length = h * w := by
  intro h
  induction h with
  | zero => simp [Sokoban.row_major]
  | succ h ih =>
    unfold Sokoban.row_major
    rw [List.range_succ, List.flatMap_append, List.length_append]
    show (row_major h w).length + _ = _
    rw [ih]
    simp [Nat.succ_mul]

/-- The number of grid cells of an in-progress flood matrix not yet marked 1
    (the strictly decreasing measure of `build_player_reachable`). -/
def unmarked (W H : Nat) (m : Sokoban.Matrix) : Nat :=
  (Sokoban.row_major H W).countP (fun c => decide (¬ Sokoban.mget m c.x c.y = some 1))

open Sokoban in
theorem unmarked_le (W H : Nat) (m : Matrix) : unmarked W H m ≤ H * W := by
  rw [← row_major_length W H]
  exact List.countP_le_length _

open Sokoban in
theorem unmarked_mono (W H : Nat) (m m2 : Matrix) (hEv : EvOk m m2) :
    unmarked W H m2 ≤ unmarked W H m := by
  refine countP_le_my _ _ _ ?_
  intro b _ hb
  rw [decide_eq_true_eq] at hb ⊢
  rcases hEv.2 b.x b.y with h | h
  · rw [← h]; exact hb
  · exact absurd h hb

open Sokoban in
theorem unmarked_mset_lt (W H : Nat) (m : Matrix) (p : Position)
    (hx : p.x < W) (hy : p.y < H) (v : Nat)
    (hv : mget m p.x p.y = some v) (h1 : v ≠ 1) :
    unmarked W H (mset m p.x p.y 1) < unmarked W H m := by
  refine countP_lt_my _ _ _ p ((row_major_mem H W p).2 ⟨hx, hy⟩) ?_ ?_ ?_
  · intro b _ hb
    rw [decide_eq_true_eq] at hb ⊢
    by_cases hbp : b.x = p.x ∧ b.y = p.y
    · rw [hbp.1, hbp.2, mget_mset_self m p.x p.y 1 v hv] at hb
      exact absurd rfl hb
    · rw [mget_mset_ne m p.x p.y 1 b.x b.y hbp] at hb
      exact hb
  · rw [decide_eq_false_iff_not]
    intro hc
    exact hc (mget_mset_self m p.x p.y 1 v hv)
  · rw [decide_eq_true_eq, hv]
    intro hc
    exact h1 (Option.some.inj hc)

open Sokoban in
theorem fold_mset_shape (S : Sokoban) :
    ∀ (cells : List Position) (m0 : Matrix),
      ((cells.foldl (fun m p =>
          let t := S.get_ntype p
          if t.is_box then mset m p.x p.y t.toNat else m) m0).map List.length) =
        m0.map List.length := by
  intro cells
  induction cells with
  | nil => intro m0; rfl
  | cons p ps ih =>
    intro m0
    rw [List.foldl_cons, ih]
    show (if (S.get_ntype p).is_box = true then
        mset m0 p.x p.y (S.get_ntype p).toNat else m0).map List.length =
      m0.map List.length
    by_cases hb : (S.get_ntype p).is_box = true
    · rw [if_pos hb, mset_shape]
    · rw [if_neg hb]

open Sokoban in
theorem init_shape (S : Sokoban) :
    (init_player_reachable S).map List.length =
      (List.replicate S.width (List.replicate S.height (0 : Nat))).map List.length := by
  unfold Sokoban.init_player_reachable
  exact fold_mset_shape S _ _

open Sokoban in
theorem flood_total (S : Sokoban)
    (hGB : ∀ c : Position, (S.get_ntype c).can_move = true →
      c.x + 1 < S.width ∧ c.y + 1 < S.height) :
    ∀ fuel : Nat,
      (∀ (p : Position) (m : Matrix),
        m.map List.length =
          (List.replicate S.width (List.replicate S.height (0 : Nat))).map List.length →
        p.x < S.width → p.y < S.height →
        unmarked S.width S.height m < fuel →
        (build_player_reachable S fuel p m).isSome = true) ∧
      (∀ (ps : List Position) (m : Matrix),
        m.map List.length =
          (List.replicate S.width (List.replicate S.height (0 : Nat))).map List.length →
        (∀ r ∈ ps, r.x < S.width ∧ r.y < S.height) →
        unmarked S.width S.height m < fuel →
        (build_pr_fold (build_player_reachable S fuel) ps m).isSome = true) := by
  intro fuel
  induction fuel with
  | zero =>
    constructor
    · intro p m _ _ _ hcnt; omega
    · intro ps m _ _ hcnt; omega
  | succ fuel ih =>
    have hP : ∀ (p : Position) (m : Matrix),
        m.map List.length =
          (List.replicate S.width (List.replicate S.height (0 : Nat))).map List.length →
        p.x < S.width → p.y < S.height →
        unmarked S.width S.height m < fuel + 1 →
        (build_player_reachable S (fuel + 1) p m).isSome = true := by
      intro p m hsh hx hy hcnt
      obtain ⟨v, hv⟩ := shape_mget m S.width S.height p.x p.y hsh hx hy
      unfold Sokoban.build_player_reachable
      rw [hv]
      show (if v = 1 then some m
          else if (S.get_ntype p).can_move = true then
            build_pr_fold (build_player_reachable S fuel) (loop_positions p)
              (mset m p.x p.y 1)
          else some m).isSome = true
      by_cases h1 : v = 1
      · rw [if_pos h1]; rfl
      · rw [if_neg h1]
        by_cases hcm : (S.get_ntype p).can_move = true
        · rw [if_pos hcm]
          obtain ⟨hx1, hy1⟩ := hGB p hcm
          refine ih.2 (loop_positions p) (mset m p.x p.y 1)
            (by rw [mset_shape]; exact hsh) ?_ ?_
          · intro r hr
            rcases (mem_loop_positions p r).1 hr with ⟨h0, rfl⟩ | rfl | ⟨h0, rfl⟩ | rfl
            · exact ⟨by show p.x - 1 < S.width; omega, by show p.y < S.height; omega⟩
            · exact ⟨by show p.x + 1 < S.width; omega, by show p.y < S.height; omega⟩
            · exact ⟨by show p.x < S.width; omega, by show p.y - 1 < S.height; omega⟩
            · exact ⟨by show p.x < S.width; omega, by show p.y + 1 < S.height; omega⟩
          · have := unmarked_mset_lt S.width S.height m p hx hy v hv h1
            omega
        · rw [if_neg hcm]; rfl
    refine ⟨hP, ?_⟩
    intro ps
    induction ps with
    | nil => intro m _ _ _; rfl
    | cons r ps ihps =>
      intro m hsh hrs hcnt
      have hsome := hP r m hsh (hrs r (by simp)).1 (hrs r (by simp)).2 hcnt
      obtain ⟨m2, hm2⟩ := Option.isSome_iff_exists.1 hsome
      unfold Sokoban.build_pr_fold
      rw [hm2]
      show (build_pr_fold (build_player_reachable S (fuel + 1)) ps m2).isSome = true
      have hEv := (pr_ev S (fuel + 1)).1 r m m2 hm2
      refine ihps m2 (hEv.1.trans hsh) (fun r2 hr2 => hrs r2 (by simp [hr2])) ?_
      have := unmarked_mono S.width S.height m m2 hEv
      omega

theorem cell_in_grid (w ht j : Nat) (hj : j < ht * w) :
    j % w < w ∧ j / w < ht := by
  have hw : 0 < w := by
    rcases Nat.eq_zero_or_pos w with h0 | h0
    · rw [h0, Nat.mul_zero] at hj; omega
    · exact h0
  exact ⟨Nat.mod_lt _ hw, (Nat.div_lt_iff_lt_mul hw).2 hj⟩

theorem built_player_in_grid (tbl : Nat → Option NodeType) (a b c d : Nat)
    (rest : List Nat) (ts : List NodeType) (S : Sokoban)
    (hts : rest.map tbl = List.map some ts)
    (hlen : rest.length = (a * 10 + b) * (c * 10 + d))
    (hS : Sokoban.build tbl (a :: b :: c :: d :: rest) = some S)
    (p : Position) (hp : S.player = some p) :
    p.x < c * 10 + d ∧ p.y < a * 10 + b := by
  rw [build_eq tbl a b c d rest ts hts hlen] at hS
  cases Option.some.inj hS
  rcases player_fold_cases ((cellsOf (c * 10 + d) 0 rest.length).zip ts) none with
    h0 | ⟨pt, hpt, hpp, h0⟩
  · have hp' : ((cellsOf (c * 10 + d) 0 rest.length).zip ts).foldl
        (fun pl pt => if pt.2.is_player then some pt.1 else pl) none = some p := hp
    rw [h0] at hp'
    exact Option.noConfusion hp'
  · have hp' : ((cellsOf (c * 10 + d) 0 rest.length).zip ts).foldl
        (fun pl pt => if pt.2.is_player then some pt.1 else pl) none = some p := hp
    rw [h0] at hp'
    cases Option.some.inj hp'
    have hmem := (List.of_mem_zip hpt).1
    rcases (cellsOf_mem (c * 10 + d) rest.length 0 pt.1).1 hmem with ⟨j, hj, hcell⟩
    rw [hcell]
    show (0 + j) % (c * 10 + d) < c * 10 + d ∧ (0 + j) / (c * 10 + d) < a * 10 + b
    rw [Nat.zero_add]
    exact cell_in_grid (c * 10 + d) (a * 10 + b) j (hlen ▸ hj)

open Sokoban in
theorem built_GB (a b c d : Nat) (rest : List Nat) (ts : List NodeType) (S : Sokoban)
    (hts : rest.map NodeType.build = List.map some ts)
    (hlen : rest.length = (a * 10 + b) * (c * 10 + d))
    (hS : Sokoban.build NodeType.build (a :: b :: c :: d :: rest) = some S)
    (hrim : ∀ j, j < rest.length →
      (j % (c * 10 + d) = 0 ∨ j % (c * 10 + d) + 1 = c * 10 + d ∨
       j / (c * 10 + d) = 0 ∨ j / (c * 10 + d) + 1 = a * 10 + b) →
      rest.get? j = some 1) :
    ∀ q : Position, (S.get_ntype q).can_move = true →
      q.x + 1 < c * 10 + d ∧ q.y + 1 < a * 10 + b := by
  intro q hcm
  by_cases hin : q.x < c * 10 + d ∧ q.y < a * 10 + b
  · by_contra hnot
    have hw : 0 < c * 10 + d := by omega
    set w := c * 10 + d with hwdef
    set ht := a * 10 + b with htdef
    set j := q.y * w + q.x with hj
    have hjlt : j < rest.length := by
      rw [hlen]
      calc q.y * w + q.x < q.y * w + w := by omega
        _ = (q.y + 1) * w := by ring
        _ ≤ ht * w := Nat.mul_le_mul_right w (by omega)
    have hmod : j % w = q.x := by
      rw [hj, Nat.add_comm, Nat.add_mul_mod_self_right, Nat.mod_eq_of_lt hin.1]
    have hdiv : j / w = q.y := by
      rw [hj, Nat.add_comm, Nat.add_mul_div_right _ _ hw,
        Nat.div_eq_of_lt hin.1, Nat.zero_add]
    have hdig : rest.get? j = some 1 := by
      refine hrim j hjlt ?_
      rw [hmod, hdiv]
      omega
    have hts_len : ts.length = rest.length := by
      have := congrArg List.length hts
      simpa using this.symm
    have hjts : j < ts.length := by omega
    have htj : ts.get? j = some (ts.get ⟨j, hjts⟩) := List.get?_eq_get hjts
    have htbl : NodeType.build 1 = some (ts.get ⟨j, hjts⟩) :=
      map_some_pointwise _ rest ts hts j 1 _ hdig htj
    have hWall : ts.get ⟨j, hjts⟩ = NodeType.Wall := by
      have h2 : (some NodeType.Wall : Option NodeType) = some (ts.get ⟨j, hjts⟩) := htbl
      exact (Option.some.inj h2).symm
    have hwcell := built_cell_wall NodeType.build a b c d rest ts S hts hlen hS j
      (htj.trans (congrArg some hWall))
    rw [hmod, hdiv] at hwcell
    have hWq : S.get_ntype q = NodeType.Wall := hwcell
    rw [hWq] at hcm
    exact absurd hcm (by decide)
  · have hlook := built_lookup_oob NodeType.build a b c d rest ts S hts hlen hS q hin
    have hWq : S.get_ntype q = NodeType.Wall := by
      rw [get_ntype_eq2, hlook]
    rw [hWq] at hcm
    exact absurd hcm (by decide)

/-- Does a level string carry a full rim of wall digits (every grid cell in
    row 0, the last row, column 0 or the last column holds digit 1)? -/
def rim_walled : List Nat → Bool
  | a :: b :: c :: d :: rest =>
    (List.range rest.length).all (fun j =>
      !(decide (j % (c * 10 + d) = 0 ∨ j % (c * 10 + d) + 1 = c * 10 + d ∨
        j / (c * 10 + d) = 0 ∨ j / (c * 10 + d) + 1 = a * 10 + b)) ||
        (rest.get? j == some 1))
  | _ => false

/-- Level `0101 4`: a 1×1 grid holding only the player, with no wall rim. -/
def level5 : List Nat := [0, 1, 0, 1, 4]

def board5 : Sokoban := (Sokoban.new level5).getD board0

/-- C5 counterexample: the valid level `0101 4` decodes successfully with the
    player at (0,0), yet `get_hash` fails (modeled `none`): the flood fill
    reaches the in-grid player cell, marks it, and then indexes the matrix at
    the high-boundary neighbor (1,0) before any Wall check, an out-of-range
    read (a panic in the source).  `can_reach` fails with it. -/
theorem C5_counterexample :
    valid_level level5 = true ∧
    Sokoban.new level5 = some board5 ∧
    board5.player = some ⟨0, 0⟩ ∧
    board5.get_hash = none ∧
    board5.can_reach ⟨0, 0⟩ = none := by
  decide

/-- C5 (amended): for boards decoded from valid level strings, out-of-grid
    positions read as Wall (the stored map covers only in-grid cells); and if
    the level carries a full rim of wall digits and a player marker, the
    flood fill only ever reads in-grid matrix entries, so `get_hash` succeeds
    and `can_reach` succeeds at every in-grid position.  Without the rim the
    flood fill can index out of range (see the counterexample). -/
theorem C5_oob_wall_total :
    (∀ (L : List Nat) (S : Sokoban) (q : Position),
        valid_level L = true → Sokoban.new L = some S →
        ¬(q.x < S.width ∧ q.y < S.height) →
        S.get_ntype q = NodeType.Wall) ∧
    (∀ (L : List Nat) (S : Sokoban),
        valid_level L = true → Sokoban.new L = some S →
        rim_walled L = true →
        S.player.isSome = true →
        (S.get_hash).isSome = true ∧
        ∀ t : Position, t.x < S.width → t.y < S.height →
          (S.can_reach t).isSome = true) := by
  constructor
  · intro L S q hv hnew hq
    obtain ⟨a, b, c, d, rest, rfl, h9a, h9b, h9c, h9d, hlen, hdig⟩ := valid_level_cases L hv
    obtain ⟨ts, hts⟩ := exists_decode NodeType.build rest
      (fun x hx => build_isSome x (hdig x hx))
    have hS : Sokoban.build NodeType.build (a :: b :: c :: d :: rest) = some S := hnew
    have hw : S.width = c * 10 + d := by
      rw [build_eq _ a b c d rest ts hts hlen] at hS
      cases Option.some.inj hS
      rfl
    have hh : S.height = a * 10 + b := by
      rw [build_eq _ a b c d rest ts hts hlen] at hS
      cases Option.some.inj hS
      rfl
    have hlook := built_lookup_oob NodeType.build a b c d rest ts S hts hlen hS q
      (by rw [← hw, ← hh]; exact hq)
    rw [get_ntype_eq2, hlook]
  · intro L S hv hnew hrim hpl
    obtain ⟨a, b, c, d, rest, rfl, h9a, h9b, h9c, h9d, hlen, hdig⟩ := valid_level_cases L hv
    obtain ⟨ts, hts⟩ := exists_decode NodeType.build rest
      (fun x hx => build_isSome x (hdig x hx))
    have hS : Sokoban.build NodeType.build (a :: b :: c :: d :: rest) = some S := hnew
    have hw : S.width = c * 10 + d := by
      rw [build_eq _ a b c d rest ts hts hlen] at hS
      cases Option.some.inj hS
      rfl
    have hh : S.height = a * 10 + b := by
      rw [build_eq _ a b c d rest ts hts hlen] at hS
      cases Option.some.inj hS
      rfl
    have hrim' : ∀ j, j < rest.length →
        (j % (c * 10 + d) = 0 ∨ j % (c * 10 + d) + 1 = c * 10 + d ∨
         j / (c * 10 + d) = 0 ∨ j / (c * 10 + d) + 1 = a * 10 + b) →
        rest.get? j = some 1 := by
      intro j hjlt hcond
      unfold rim_walled at hrim
      have h0 := List.all_eq_true.1 hrim j (List.mem_range.2 hjlt)
      rw [decide_eq_true hcond] at h0
      simp only [Bool.not_true, Bool.false_or, beq_iff_eq] at h0
      exact h0
    have hGB' : ∀ c2 : Position, (S.get_ntype c2).can_move = true →
        c2.x + 1 < S.width ∧ c2.y + 1 < S.height := by
      intro c2 hc2
      rw [hw, hh]
      exact built_GB a b c d rest ts S hts hlen hS hrim' c2 hc2
    obtain ⟨p, hp⟩ := Option.isSome_iff_exists.1 hpl
    have hpin := built_player_in_grid NodeType.build a b c d rest ts S hts hlen hS p hp
    have hcount : unmarked S.width S.height (Sokoban.init_player_reachable S) <
        S.width * S.height + 1 := by
      have h1 := unmarked_le S.width S.height (Sokoban.init_player_reachable S)
      rw [Nat.mul_comm] at h1
      omega
    have hflood := (flood_total S hGB' (S.width * S.height + 1)).1 p
      (Sokoban.init_player_reachable S) (init_shape S)
      (by rw [hw]; exact hpin.1) (by rw [hh]; exact hpin.2) hcount
    have hgh : (S.get_hash).isSome = true := by
      unfold Sokoban.get_hash
      rw [hp]
      exact hflood
    refine ⟨hgh, ?_⟩
    intro t htx hty
    obtain ⟨m, hm0⟩ := Option.isSome_iff_exists.1 hgh
    have hm : Sokoban.build_player_reachable S (S.width * S.height + 1) p
        (Sokoban.init_player_reachable S) = some m := by
      unfold Sokoban.get_hash at hm0
      rw [hp] at hm0
      exact hm0
    have hEv := (pr_ev S (S.width * S.height + 1)).1 _ _ _ hm
    have hshm : m.map List.length =
        (List.replicate S.width (List.replicate S.height (0 : Nat))).map List.length :=
      hEv.1.trans (init_shape S)
    obtain ⟨v, hvm⟩ := shape_mget m S.width S.height t.x t.y hshm htx hty
    unfold Sokoban.can_reach
    rw [hm0]
    show (match Sokoban.mget m t.x t.y with
        | none => (none : Option Bool)
        | some v => some (v == 1)).isSome = true
    rw [hvm]
    rfl

/-- C5 witness: on `levelA` (a wall-rimmed valid level), the out-of-grid
    position (9,9) reads as Wall, `get_hash` succeeds, and `can_reach`
    succeeds at every in-grid position. -/
theorem C5_witness :
    boardA.get_ntype ⟨9, 9⟩ = NodeType.Wall ∧
    ((boardA.get_hash).isSome = true ∧
      ∀ t : Position, t.x < boardA.width → t.y < boardA.height →
        (boardA.can_reach t).isSome = true) := by
  constructor
  · exact C5_oob_wall_total.1 levelA boardA ⟨9, 9⟩ (by decide) (by decide) (by decide)
  · exact C5_oob_wall_total.2 levelA boardA (by decide) (by decide) (by decide) (by decide)

/-! ### C7 -/

theorem mod_usize_lt (x : Nat) : x % USIZE < USIZE :=
  Nat.mod_lt _ (by decide)

theorem dir_loop_eq (R : Solver → Nat → Nat → Nat → Direction → Nat → Nat → Option (Bool × Solver))
    (R2 : Solver → Nat → Nat → Nat → Direction → Nat → Option (Bool × Solver))
    (hrec : ∀ sv s g b dir dp, R sv s g b dir (USIZE - 1) dp = R2 sv s g b dir dp)
    (start_cost cgi cbi depth : Nat) :
    ∀ (k : Nat) (dir : Direction) (blocked : Bool) (sv : Solver),
      dir_loop R start_cost cgi cbi (USIZE - 1) depth k dir blocked sv =
        dir_loop_np R2 start_cost cgi cbi depth k dir blocked sv := by
  intro k
  induction k with
  | zero => intro dir blocked sv; rfl
  | succ k ih =>
    intro dir blocked sv
    unfold dir_loop dir_loop_np
    cases hh : sv.get_heuristic cgi cbi with
    | none => rfl
    | some o =>
      cases o with
      | none =>
        dsimp only
        exact ih dir blocked sv
      | some hv =>
        dsimp only
        rw [if_neg (by have := mod_usize_lt (start_cost + hv); omega)]
        cases hm : sv.sokoban.move_box cbi dir with
        | none => rfl
        | some pr =>
          rcases pr with ⟨applied, sk⟩
          cases applied with
          | false => exact ih dir.next blocked { sv with sokoban := sk }
          | true =>
            dsimp only
            rw [hrec { sv with sokoban := sk, counter := sv.counter + 1 }
              (start_cost + 1) cgi cbi dir (depth + 1)]
            cases hr : R2 { sv with sokoban := sk, counter := sv.counter + 1 }
                (start_cost + 1) cgi cbi dir (depth + 1) with
            | none => rfl
            | some pr2 =>
              rcases pr2 with ⟨solvedQ, sv2⟩
              dsimp only
              cases hu : sv2.sokoban.undo_move_box cbi dir with
              | none => rfl
              | some sk2 =>
                cases solvedQ with
                | true => rfl
                | false => exact ih dir.next false { sv2 with sokoban := sk2 }

theorem goal_loop_eq (R : Solver → Nat → Nat → Nat → Direction → Nat → Nat → Option (Bool × Solver))
    (R2 : Solver → Nat → Nat → Nat → Direction → Nat → Option (Bool × Solver))
    (hrec : ∀ sv s g b dir dp, R sv s g b dir (USIZE - 1) dp = R2 sv s g b dir dp)
    (start_cost goal_index box_index cbi : Nat) (prev_dir : Direction)
    (depth match_length : Nat) :
    ∀ (rem i : Nat) (sv : Solver),
      goal_loop R start_cost goal_index box_index cbi prev_dir (USIZE - 1) depth
          match_length rem i sv =
        goal_loop_np R2 start_cost goal_index box_index cbi prev_dir depth
          match_length rem i sv := by
  intro rem
  induction rem with
  | zero => intro i sv; rfl
  | succ rem ih =>
    intro i sv
    unfold goal_loop goal_loop_np
    dsimp only
    rw [dir_loop_eq R R2 hrec start_cost ((goal_index + i) % match_length) cbi depth
      4 prev_dir true sv]
    cases hd : dir_loop_np R2 start_cost ((goal_index + i) % match_length) cbi depth
        4 prev_dir true sv with
    | none => rfl
    | some pr =>
      rcases pr with ⟨res, sv2⟩
      cases res with
      | solved => rfl
      | finished blk =>
        cases blk with
        | true => rfl
        | false => exact ih (i + 1) sv2

theorem box_loop_eq (R : Solver → Nat → Nat → Nat → Direction → Nat → Nat → Option (Bool × Solver))
    (R2 : Solver → Nat → Nat → Nat → Direction → Nat → Option (Bool × Solver))
    (hrec : ∀ sv s g b dir dp, R sv s g b dir (USIZE - 1) dp = R2 sv s g b dir dp)
    (start_cost goal_index box_index : Nat) (prev_dir : Direction)
    (depth match_length : Nat) :
    ∀ (rem j : Nat) (sv : Solver),
      box_loop R start_cost goal_index box_index prev_dir (USIZE - 1) depth
          match_length rem j sv =
        box_loop_np R2 start_cost goal_index box_index prev_dir depth
          match_length rem j sv := by
  intro rem
  induction rem with
  | zero => intro j sv; rfl
  | succ rem ih =>
    intro j sv
    unfold box_loop box_loop_np
    dsimp only
    rw [goal_loop_eq R R2 hrec start_cost goal_index box_index
      ((box_index + j) % match_length) prev_dir depth match_length match_length 0 sv]
    cases hg : goal_loop_np R2 start_cost goal_index box_index
        ((box_index + j) % match_length) prev_dir depth match_length match_length 0 sv with
    | none => rfl
    | some pr =>
      rcases pr with ⟨res, sv2⟩
      cases res with
      | solved => rfl
      | cut => rfl
      | done => exact ih (j + 1) sv2

theorem solve_dfs_eq :
    ∀ (fuel : Nat) (sv : Solver) (start_cost goal_index box_index : Nat)
      (prev_dir : Direction) (depth : Nat),
      solve_dfs fuel sv start_cost goal_index box_index prev_dir (USIZE - 1) depth =
        solve_dfs_np fuel sv start_cost goal_index box_index prev_dir depth := by
  intro fuel
  induction fuel with
  | zero => intro sv s g b dir dp; rfl
  | succ fuel ih =>
    intro sv s g b dir dp
    unfold solve_dfs solve_dfs_np
    cases hs : sv.is_solved with
    | none => rfl
    | some solvedQ =>
      cases solvedQ with
      | true => rfl
      | false =>
        dsimp only
        cases hb : sv.been_here dp with
        | none => rfl
        | some pr =>
          rcases pr with ⟨beenQ, sv1⟩
          cases beenQ with
          | true => rfl
          | false =>
            dsimp only
            rw [box_loop_eq (solve_dfs fuel) (solve_dfs_np fuel)
              (fun sv2 s2 g2 b2 dir2 dp2 => ih sv2 s2 g2 b2 dir2 dp2)
              s g b dir dp sv1.sokoban.boxes.length sv1.sokoban.boxes.length 0 sv1]

theorem solve_zones_eq (fuel : Nat) :
    ∀ (zones : List Position) (sv : Solver),
      solve_zones fuel zones sv = solve_zones_np fuel zones sv := by
  intro zones
  induction zones with
  | nil => intro sv; rfl
  | cons z rest ih =>
    intro sv
    unfold solve_zones solve_zones_np
    dsimp only
    rw [solve_dfs_eq fuel { sv with sokoban := { sv.sokoban with player := some z } }
      0 0 0 Direction.Up 0]
    cases hz : solve_dfs_np fuel { sv with sokoban := { sv.sokoban with player := some z } }
        0 0 0 Direction.Up 0 with
    | none => rfl
    | some pr =>
      rcases pr with ⟨solvedQ, sv2⟩
      cases solvedQ with
      | true => rfl
      | false => exact ih sv2

/-- C7: `solve_sokoban` launches every `solve_dfs` search with
    `cost_limit = usize::MAX` (`USIZE - 1`), the limit is passed through
    unchanged, and at that limit the pruning comparison
    `(start_cost + heuristic) % 2^64 > cost_limit` can never hold, so the
    whole search coincides with the variant in which the cost-pruning check
    (and the `cost_limit` parameter) are removed: cost pruning never removes
    a branch. -/
theorem C7_cost_pruning_inert :
    (∀ (fuel : Nat) (sv : Solver) (start_cost goal_index box_index : Nat)
        (prev_dir : Direction) (depth : Nat),
      solve_dfs fuel sv start_cost goal_index box_index prev_dir (USIZE - 1) depth =
        solve_dfs_np fuel sv start_cost goal_index box_index prev_dir depth) ∧
    (∀ (fuel : Nat) (sv : Solver),
      solve_sokoban fuel sv = solve_sokoban_np fuel sv) := by
  constructor
  · exact solve_dfs_eq
  · intro fuel sv
    unfold solve_sokoban solve_sokoban_np
    cases hz : sv.player_zones with
    | none => rfl
    | some zones =>
      show solve_zones fuel zones sv = _
      exact solve_zones_eq fuel zones sv

end SokobanSolver
